import Mathlib

/-!
Verification development for the hybrid question retrieval and deduplication
engine (`rag_python`): text utilities, the stable 64-bit string hash,
fingerprints, the deterministic hash embedder, the vector index, BM25, score
fusion, the reranker, and the engine's ingest/retrieve state machine are
embedded shallowly and the specification's claims are settled against them.

Modelling conventions:
* Python `float` arithmetic is idealised as real arithmetic (`ℝ`); literal
  configuration constants are kept as rationals so they stay decidable.
* Python dicts are modelled as association lists with insertion-order
  semantics: updating an existing key keeps its position, new keys append.
* Machine integers in the hash are `Nat` with explicit `% 2^32` masking
  (`& 0xFFFFFFFF` on a 32-bit-bounded operand is exactly `% 2^32`).
-/

set_option autoImplicit false
set_option maxRecDepth 8000

namespace EdRAG

/-! ### Text utilities — `src/rag_python/utils.py` -/

/-- ASCII lowering, mirroring `str.lower()` on the ASCII inputs the engine
handles (Unicode case folding beyond ASCII is out of scope). -/
def charLower (c : Char) : Char :=
  if 'A' ≤ c ∧ c ≤ 'Z' then Char.ofNat (c.toNat + 32) else c

/-- Python regex `\s` on ASCII: space, tab, newline, carriage return,
form feed, vertical tab. -/
def isPySpace (c : Char) : Bool :=
  c = ' ' ∨ c = '\t' ∨ c = '\n' ∨ c = '\x0d' ∨ c = '\x0c' ∨ c = '\x0b'

/-- Character class `[a-z0-9]`. -/
def isLowerAlnum (c : Char) : Bool :=
  ('a' ≤ c ∧ c ≤ 'z') ∨ ('0' ≤ c ∧ c ≤ '9')

/-- One character of `re.sub(r"[^a-z0-9\s]", " ", text.lower())`. -/
def normChar (c : Char) : Char :=
  let l := charLower c
  if isLowerAlnum l ∨ isPySpace l then l else ' '

/-- `re.sub(r"\s+", " ", ·)`: collapse every maximal whitespace run to one
space. The boolean records whether we are inside a whitespace run whose
single replacement space was already emitted. -/
def collapseWsAux : Bool → List Char → List Char
  | _, [] => []
  | inRun, c :: cs =>
    if isPySpace c then
      if inRun then collapseWsAux true cs else ' ' :: collapseWsAux true cs
    else c :: collapseWsAux false cs

def collapseWs (l : List Char) : List Char := collapseWsAux false l

/-- `str.strip()` restricted to whitespace. -/
def trimSpaces (l : List Char) : List Char :=
  ((l.dropWhile (isPySpace ·)).reverse.dropWhile (isPySpace ·)).reverse

/-- `normalize_text`: lower-case, replace non-`[a-z0-9\s]` with a space,
collapse whitespace runs, trim. -/
def normalizeText (s : String) : String :=
  String.mk (trimSpaces (collapseWs (s.data.map normChar)))

/-- `str.split(" ")`: split on every single space (empty pieces kept). -/
def splitSpaceAux : List Char → List Char → List String
  | [], acc => [String.mk acc.reverse]
  | c :: cs, acc =>
    if c = ' ' then String.mk acc.reverse :: splitSpaceAux cs []
    else splitSpaceAux cs (c :: acc)

/-- `tokenize`: normalize, split on single spaces, drop empty tokens. -/
def tokenizeStr (s : String) : List String :=
  let t := normalizeText s
  if t = "" then [] else (splitSpaceAux t.data []).filter (· ≠ "")

/-- Whole token made of digits (`\b\d+(\.\d+)?\b` applied to a normalized
string: after `normalize_text` no dot survives and `\b` boundaries can only
fall at spaces or string ends, so the regex matches exactly the maximal
space-delimited runs consisting solely of digits). -/
def isNumToken (t : String) : Bool :=
  t ≠ "" ∧ t.data.all fun c => '0' ≤ c ∧ c ≤ '9'

/-- `normalize_template_text`: normalize, then mask numeric tokens. -/
def normalizeTemplateText (s : String) : String :=
  let ts := (splitSpaceAux (normalizeText s).data []).map
    fun t => if isNumToken t then "<num>" else t
  String.intercalate " " ts

/-! ### `stable_hash` — `src/rag_python/utils.py` lines 20-29 -/

/-- One accumulation step of `stable_hash`: the `& 0xFFFFFFFF` masks are
written `% 2^32`. -/
def hashStep (p : ℕ × ℕ) (ch : Char) : ℕ × ℕ :=
  let c := ch.toNat
  (((p.1 ^^^ c) * 2654435761) % 4294967296,
   ((p.2 ^^^ c) * 1597334677) % 4294967296)

/-- The shared finalisation shape: the first argument plays the `h1` role,
the second the `h2` role. -/
def hashFinal (a b : ℕ) : ℕ :=
  (((a ^^^ (a >>> 16)) * 2246822507) ^^^ ((b ^^^ (b >>> 13)) * 3266489909)) % 4294967296

/-- Lowercase hex digit for `d < 16`. -/
def hexDigitChar (d : ℕ) : Char :=
  if d < 10 then Char.ofNat (48 + d) else Char.ofNat (87 + d)

/-- `f"{n:08x}"` for `n < 2^32`: eight lowercase hex digits, zero padded. -/
def hexPad8 (n : ℕ) : String :=
  String.mk ((List.range 8).map fun i => hexDigitChar ((n >>> (4 * (7 - i))) % 16))

/-- `stable_hash`, translated from the code: fold the two accumulators over
the string's code points, finalise `h1`, then finalise `h2` reading the
already-finalised `h1` (Python reassigns `h1` first), and format. -/
def stableHash (s : String) : String :=
  let p := s.data.foldl hashStep (0xDEADBEEF, 0x41C6CE57)
  let h1 := hashFinal p.1 p.2
  let h2 := hashFinal p.2 h1
  hexPad8 h2 ++ hexPad8 h1

/-! #### The specification's reference recipe for `stable_hash` (§4.1),
written independently of the code: explicit recursion over the code units,
then the two finalisation assignments in order, then `hex(h2) || hex(h1)`. -/

/-- Spec recipe accumulation: `h1 = ((h1 XOR c) * 2654435761) mod 2^32`,
`h2 = ((h2 XOR c) * 1597334677) mod 2^32` for each code unit `c`. -/
def specAccum : ℕ → ℕ → List ℕ → ℕ × ℕ
  | h1, h2, [] => (h1, h2)
  | h1, h2, c :: cs =>
    specAccum (((h1 ^^^ c) * 2654435761) % 2 ^ 32)
      (((h2 ^^^ c) * 1597334677) % 2 ^ 32) cs

/-- Spec recipe, finalisation written as the two assignments
`h1 = (((h1 XOR (h1>>16)) * 2246822507) XOR ((h2 XOR (h2>>13)) * 3266489909)) mod 2^32`
and then the same formula with the roles of `h1` and `h2` swapped
(so the second assignment reads the already-updated `h1`).
Output is `hex(h2) || hex(h1)`. -/
def specStableHash (s : String) : String :=
  let p := specAccum 0xDEADBEEF 0x41C6CE57 (s.data.map Char.toNat)
  let h1 := (((p.1 ^^^ (p.1 >>> 16)) * 2246822507) ^^^
             ((p.2 ^^^ (p.2 >>> 13)) * 3266489909)) % 2 ^ 32
  let h2 := (((p.2 ^^^ (p.2 >>> 16)) * 2246822507) ^^^
             ((h1 ^^^ (h1 >>> 13)) * 3266489909)) % 2 ^ 32
  hexPad8 h2 ++ hexPad8 h1

/-- A lowercase hex digit. -/
def isLowerHexDigit (c : Char) : Bool :=
  ('0' ≤ c ∧ c ≤ '9') ∨ ('a' ≤ c ∧ c ≤ 'f')

theorem specAccum_eq_foldl (l : List ℕ) (h1 h2 : ℕ) (cs : List Char)
    (h : cs.map Char.toNat = l) :
    specAccum h1 h2 l = cs.foldl hashStep (h1, h2) := by
  induction l generalizing h1 h2 cs with
  | nil =>
    cases cs with
    | nil => rfl
    | cons c cs => simp at h
  | cons x xs ih =>
    cases cs with
    | nil => simp at h
    | cons c cs =>
      simp only [List.map_cons, List.cons.injEq] at h
      obtain ⟨hx, hxs⟩ := h
      subst hx
      simp only [specAccum, List.foldl_cons]
      rw [ih _ _ cs hxs]
      rfl

theorem hexDigitChar_isLowerHex (d : ℕ) (hd : d < 16) :
    isLowerHexDigit (hexDigitChar d) = true := by
  interval_cases d <;> decide

theorem hexPad8_length (n : ℕ) : (hexPad8 n).length = 8 := by
  simp [hexPad8, String.length]

theorem hexPad8_digits (n : ℕ) (c : Char) (hc : c ∈ (hexPad8 n).data) :
    isLowerHexDigit c = true := by
  simp only [hexPad8, String.mk, List.mem_map] at hc
  obtain ⟨i, _, rfl⟩ := hc
  exact hexDigitChar_isLowerHex _ (Nat.mod_lt _ (by norm_num))

/-- **C2.** `stable_hash` returns exactly the 16 lowercase hex digits
prescribed by the spec's reference recipe: it equals the independently
written recipe on every input, has length 16, and every character of its
output is a lowercase hex digit. -/
theorem stable_hash_matches_spec_recipe (s : String) :
    stableHash s = specStableHash s ∧
      (stableHash s).length = 16 ∧
      ∀ c ∈ (stableHash s).data, isLowerHexDigit c = true := by
  have hrec : stableHash s = specStableHash s := by
    unfold stableHash specStableHash
    rw [specAccum_eq_foldl (s.data.map Char.toNat) _ _ s.data rfl]
    norm_num [hashFinal]
  refine ⟨hrec, ?_, ?_⟩
  · simp [stableHash, String.length_append, hexPad8_length]
  · intro c hc
    unfold stableHash at hc
    rw [String.data_append] at hc
    rcases List.mem_append.mp hc with h | h
    · exact hexPad8_digits _ _ h
    · exact hexPad8_digits _ _ h

/-! ### `clamp01`, `cosine_similarity` — `src/rag_python/utils.py` -/

def clamp01R (x : ℝ) : ℝ := max 0 (min 1 x)

/-- Pointwise product sum (`sum(x * y for x, y in zip(a, b))`). -/
def dotR (a b : List ℝ) : ℝ := (List.zipWith (· * ·) a b).sum

/-- Sum of squares, so that the L2 norm is `Real.sqrt (sumSqR v)`. -/
def sumSqR (l : List ℝ) : ℝ := dotR l l

open Classical in
/-- `cosine_similarity`: 0 if either list is empty, lengths differ, or either
norm is 0; else `dot / (‖a‖ * ‖b‖)`. -/
noncomputable def cosineSim (a b : List ℝ) : ℝ :=
  if a.isEmpty ∨ b.isEmpty ∨ a.length ≠ b.length then 0
  else
    let na := Real.sqrt (sumSqR a)
    let nb := Real.sqrt (sumSqR b)
    if na = 0 ∨ nb = 0 then 0 else dotR a b / (na * nb)

/-! ### Fingerprints — `src/rag_python/fingerprint.py` -/

def buildExactHash (stem : String) (options : List String) (answer : Option String) : String :=
  stableHash (normalizeText stem ++ "||" ++
    String.intercalate "|" (options.map normalizeText) ++ "||" ++
    normalizeText (answer.getD ""))

def buildTemplateHash (stem : String) : String :=
  stableHash (normalizeTemplateText stem)

/-! ### Deterministic hash embedder — `src/rag_python/embedding.py`

`encode` accumulates signed unit contributions per token into an
integer-valued vector (`encodeRaw`), then L2-normalises. The code's test
`norm == 0` is modelled as `sumSqInt out = 0`, which is equivalent since
`math.sqrt` of a non-negative number is zero exactly on zero. -/

/-- Value of a lowercase hex digit (only ever applied to `[0-9a-f]`). -/
def hexVal (c : Char) : ℕ := if c ≤ '9' then c.toNat - 48 else c.toNat - 87

/-- `int(h, 16)` over the given characters. -/
def parseHexNat (l : List Char) : ℕ := l.foldl (fun acc c => 16 * acc + hexVal c) 0

/-- One token's contribution: `h = stable_hash(token)`;
`bucket = int(h[:8], 16) % dim`; sign from the parity of `int(h[8:16], 16)`;
`out[bucket] += sign`. -/
def addToken (dim : ℕ) (out : List ℤ) (token : String) : List ℤ :=
  let h := stableHash token
  let bucket := parseHexNat (h.data.take 8) % dim
  let sign : ℤ := if parseHexNat ((h.data.drop 8).take 8) % 2 = 0 then 1 else -1
  out.set bucket (out.getD bucket 0 + sign)

def accumTokens (dim : ℕ) (tokens : List String) : List ℤ :=
  tokens.foldl (addToken dim) (List.replicate dim 0)

/-- The integer-valued bag-of-hashed-tokens vector before normalisation. -/
def encodeRaw (dim : ℕ) (text : String) : List ℤ :=
  accumTokens dim (tokenizeStr text)

def sumSqInt (l : List ℤ) : ℤ := (l.map fun x => x * x).sum

/-- `DeterministicHashEmbedder.encode`: the `tokens = []` early return yields
the zero vector, which coincides with the `norm == 0` branch below. -/
noncomputable def encode (dim : ℕ) (text : String) : List ℝ :=
  let out := encodeRaw dim text
  if sumSqInt out = 0 then out.map (fun x : ℤ => (x : ℝ))
  else out.map fun x : ℤ => (x : ℝ) / Real.sqrt ((sumSqInt out : ℤ) : ℝ)

theorem length_addToken (dim : ℕ) (out : List ℤ) (t : String) :
    (addToken dim out t).length = out.length := by
  simp [addToken]

theorem length_accumTokens (dim : ℕ) (ts : List String) :
    (accumTokens dim ts).length = dim := by
  suffices h : ∀ (init : List ℤ), (ts.foldl (addToken dim) init).length = init.length by
    simpa [accumTokens] using h (List.replicate dim 0)
  induction ts with
  | nil => intro init; rfl
  | cons t ts ih => intro init; rw [List.foldl_cons, ih, length_addToken]

theorem length_encodeRaw (dim : ℕ) (s : String) : (encodeRaw dim s).length = dim :=
  length_accumTokens dim (tokenizeStr s)

theorem length_encode (dim : ℕ) (s : String) : (encode dim s).length = dim := by
  by_cases h : sumSqInt (encodeRaw dim s) = 0 <;>
    simp [encode, h, length_encodeRaw]

theorem sumSqInt_nonneg (l : List ℤ) : 0 ≤ sumSqInt l := by
  induction l with
  | nil => simp [sumSqInt]
  | cons x xs ih =>
    simp only [sumSqInt, List.map_cons, List.sum_cons] at ih ⊢
    exact add_nonneg (mul_self_nonneg x) ih

theorem sumSqInt_eq_zero (l : List ℤ) (h : sumSqInt l = 0) :
    l = List.replicate l.length 0 := by
  induction l with
  | nil => rfl
  | cons x xs ih =>
    simp only [sumSqInt, List.map_cons, List.sum_cons] at h
    have hxs : 0 ≤ sumSqInt xs := sumSqInt_nonneg xs
    have hx2 : 0 ≤ x * x := mul_self_nonneg x
    have hx : x * x = 0 := by
      have := sumSqInt_nonneg xs
      simp only [sumSqInt] at this
      omega
    have hxs0 : sumSqInt xs = 0 := by
      simp only [sumSqInt] at hxs ⊢
      omega
    have hx0 : x = 0 := by
      rcases mul_self_eq_zero.mp hx with h; exact h
    rw [hx0, ih hxs0]
    simp [List.replicate_succ]

theorem sumSqR_cons (x : ℝ) (l : List ℝ) :
    sumSqR (x :: l) = x * x + sumSqR l := by
  simp [sumSqR, dotR]

theorem sumSqR_map_cast (l : List ℤ) :
    sumSqR (l.map (fun x : ℤ => (x : ℝ))) = ((sumSqInt l : ℤ) : ℝ) := by
  induction l with
  | nil => simp [sumSqR, dotR, sumSqInt]
  | cons x xs ih =>
    simp only [List.map_cons, sumSqR_cons, ih, sumSqInt, List.sum_cons]
    push_cast
    ring

theorem sumSqR_map_div (l : List ℝ) (c : ℝ) :
    sumSqR (l.map fun x => x / c) = sumSqR l / c ^ 2 := by
  induction l with
  | nil => simp [sumSqR, dotR]
  | cons x xs ih =>
    simp only [List.map_cons, sumSqR_cons, ih, pow_two]
    rw [div_mul_div_comm, add_div]

theorem sumSqR_replicate_zero (n : ℕ) : sumSqR (List.replicate n (0 : ℝ)) = 0 := by
  induction n with
  | zero => simp [sumSqR, dotR]
  | succ n ih => simp [List.replicate_succ, sumSqR_cons, ih]

/-- Helper: when the hashed contributions do not fully cancel, `encode`
returns a vector whose sum of squares is 1. -/
theorem sumSqR_encode (dim : ℕ) (s : String)
    (h : sumSqInt (encodeRaw dim s) ≠ 0) :
    sumSqR (encode dim s) = 1 := by
  unfold encode
  rw [if_neg h]
  have hmap : (encodeRaw dim s).map
      (fun x : ℤ => (x : ℝ) / Real.sqrt ((sumSqInt (encodeRaw dim s) : ℤ) : ℝ)) =
      ((encodeRaw dim s).map (fun x : ℤ => (x : ℝ))).map
        (fun x => x / Real.sqrt ((sumSqInt (encodeRaw dim s) : ℤ) : ℝ)) := by
    rw [List.map_map]; rfl
  rw [hmap, sumSqR_map_div, sumSqR_map_cast]
  have hpos : (0 : ℝ) ≤ ((sumSqInt (encodeRaw dim s) : ℤ) : ℝ) := by
    exact_mod_cast sumSqInt_nonneg _
  rw [Real.sq_sqrt hpos]
  have hne : ((sumSqInt (encodeRaw dim s) : ℤ) : ℝ) ≠ 0 := by
    exact_mod_cast h
  field_simp

/-- Helper: full cancellation (or no tokens) yields the all-zero vector. -/
theorem encode_zero_of_cancel (dim : ℕ) (s : String)
    (h : sumSqInt (encodeRaw dim s) = 0) :
    encode dim s = List.replicate dim (0 : ℝ) := by
  unfold encode
  rw [if_pos h]
  have hz := sumSqInt_eq_zero _ h
  rw [length_encodeRaw] at hz
  rw [hz]
  simp

/-- **C5 (amended).** If the hashed token contributions do not fully cancel
(`sumSqInt (encodeRaw dim s) ≠ 0`, which in particular requires
`tokenize s ≠ []`), `encode` returns a vector of L2 norm 1; if they cancel
— including the empty-token case — it returns the all-zero vector of the
configured dimension. -/
theorem encode_norm_one_unless_cancel (dim : ℕ) (s : String) :
    (sumSqInt (encodeRaw dim s) ≠ 0 →
      Real.sqrt (sumSqR (encode dim s)) = 1) ∧
    (sumSqInt (encodeRaw dim s) = 0 →
      encode dim s = List.replicate dim (0 : ℝ)) ∧
    (tokenizeStr s = [] → encodeRaw dim s = List.replicate dim 0) := by
  refine ⟨fun h => ?_, encode_zero_of_cancel dim s, fun h => ?_⟩
  · rw [sumSqR_encode dim s h, Real.sqrt_one]
  · unfold encodeRaw
    rw [h]
    rfl

theorem encode_norm_one_unless_cancel_witness :
    sumSqInt (encodeRaw 512 "hello") ≠ 0 ∧
      Real.sqrt (sumSqR (encode 512 "hello")) = 1 :=
  ⟨by decide, (encode_norm_one_unless_cancel 512 "hello").1 (by decide)⟩

/-- **C5 (counterexample).** The tokens `"ak"` and `"am"` hash to the same
bucket (94) of a 512-dimensional embedder with opposite signs, so
`encode 512 "ak am"` is the all-zero vector — of norm 0, not 1 — even
though `tokenize "ak am" = ["ak", "am"]` is non-empty. This refutes the
claim that a non-empty token list always yields a unit vector. -/
theorem c5_encode_nonempty_tokens_zero_vector :
    tokenizeStr "ak am" ≠ [] ∧
      encode 512 "ak am" = List.replicate 512 (0 : ℝ) ∧
      Real.sqrt (sumSqR (encode 512 "ak am")) ≠ 1 := by
  have hraw : sumSqInt (encodeRaw 512 "ak am") = 0 := by decide
  have henc := encode_zero_of_cancel 512 "ak am" hraw
  refine ⟨by decide, henc, ?_⟩
  rw [henc, sumSqR_replicate_zero, Real.sqrt_zero]
  norm_num

/-! ### Python-dict and stable-sort helpers

Python dicts preserve insertion order and updating an existing key keeps its
position; `list.sort(key=..., reverse=True)` is a stable descending sort,
which an insertion sort placing each earlier element before later elements
of equal key reproduces exactly. -/

def lookupD {α : Type} : List (String × α) → String → Option α
  | [], _ => none
  | p :: ps, k => if p.1 = k then some p.2 else lookupD ps k

def insertD {α : Type} : List (String × α) → String → α → List (String × α)
  | [], k, v => [(k, v)]
  | p :: ps, k, v => if p.1 = k then (k, v) :: ps else p :: insertD ps k v

theorem lookupD_insertD_self {α : Type} (l : List (String × α)) (k : String) (v : α) :
    lookupD (insertD l k v) k = some v := by
  induction l with
  | nil => simp [insertD, lookupD]
  | cons p ps ih =>
    by_cases h : p.1 = k
    · simp [insertD, lookupD, h]
    · simp [insertD, lookupD, h, ih]

theorem lookupD_insertD_ne {α : Type} (l : List (String × α)) (k k' : String) (v : α)
    (h : k' ≠ k) : lookupD (insertD l k v) k' = lookupD l k' := by
  induction l with
  | nil => simp [insertD, lookupD, Ne.symm h]
  | cons p ps ih =>
    obtain ⟨pk, pv⟩ := p
    by_cases hp : pk = k
    · subst hp
      simp [insertD, lookupD, Ne.symm h]
    · simp only [insertD, if_neg hp, lookupD]
      by_cases hp' : pk = k'
      · simp [hp']
      · simp [hp', ih]

open Classical in
/-- Stable insertion step for descending sort by a real-valued key. -/
noncomputable def insertScoreDesc {α : Type} (key : α → ℝ) (x : α) :
    List α → List α
  | [] => [x]
  | y :: ys => if key y ≤ key x then x :: y :: ys else y :: insertScoreDesc key x ys

/-- `list.sort(key=key, reverse=True)` (stable descending). -/
noncomputable def sortScoreDesc {α : Type} (key : α → ℝ) (l : List α) : List α :=
  l.foldr (insertScoreDesc key) []

theorem mem_insertScoreDesc {α : Type} (key : α → ℝ) (x a : α) (l : List α) :
    a ∈ insertScoreDesc key x l ↔ a = x ∨ a ∈ l := by
  induction l with
  | nil => simp [insertScoreDesc]
  | cons y ys ih =>
    by_cases h : key y ≤ key x
    · simp [insertScoreDesc, h]
    · simp only [insertScoreDesc, if_neg h, List.mem_cons, ih]
      tauto

theorem mem_sortScoreDesc {α : Type} (key : α → ℝ) (a : α) (l : List α) :
    a ∈ sortScoreDesc key l ↔ a ∈ l := by
  induction l with
  | nil => simp [sortScoreDesc]
  | cons y ys ih =>
    simp only [sortScoreDesc, List.foldr_cons] at ih ⊢
    rw [mem_insertScoreDesc, ih, List.mem_cons]

/-- First-occurrence deduplication; stands in for iterating a Python `set`
(whose iteration order is unspecified — no claim depends on the order in
which deduplicated qids are visited, only on their membership). -/
def dedupKeys : List String → List String
  | [] => []
  | k :: ks => k :: (dedupKeys ks).filter (· ≠ k)

theorem mem_dedupKeys (a : String) (l : List String) :
    a ∈ dedupKeys l ↔ a ∈ l := by
  induction l with
  | nil => simp [dedupKeys]
  | cons k ks ih =>
    by_cases h : a = k
    · simp [dedupKeys, h]
    · simp [dedupKeys, List.mem_filter, h, ih]

/-! ### Vector index — `src/rag_python/vector_index.py`

`VectorIndex.search` dispatches to a numpy implementation when numpy is
importable and the store is non-empty, else to a pure-Python heap
implementation. The heap is modelled by its sorted contents: every step of
`_search_heap` observes only the multiset of heap entries and its minimum
under Python's lexicographic tuple order on `(score, qid)`, and the final
`sorted(heap, reverse=True)` depends only on the contents, so a list kept
sorted ascending is observationally identical to the `heapq` structure. -/

open Classical in
/-- Insert into an ascending (by `(score, qid)` lex order) list. -/
noncomputable def heapPush (x : ℝ × String) : List (ℝ × String) → List (ℝ × String)
  | [] => [x]
  | y :: ys =>
    if x.1 < y.1 ∨ (x.1 = y.1 ∧ x.2 ≤ y.2) then x :: y :: ys
    else y :: heapPush x ys

open Classical in
/-- One loop iteration of `_search_heap`: skip length mismatches, skip
non-positive cosine scores, push while below capacity, else replace the
minimum when strictly better. (For `top_k = 0` CPython would raise
`IndexError` on `heap[0]`; the engine always passes `top_k ≥ 1`.) -/
noncomputable def heapStep (q : List ℝ) (k : ℕ) (heap : List (ℝ × String))
    (row : String × List ℝ) : List (ℝ × String) :=
  if row.2.length ≠ q.length then heap
  else
    let score := cosineSim q row.2
    if score ≤ 0 then heap
    else if heap.length < k then heapPush (score, row.1) heap
    else
      match heap with
      | [] => heap
      | m :: rest => if m.1 < score then heapPush (score, row.1) rest else heap

/-- `_search_heap`: the returned rows are `sorted(heap, reverse=True)`
reshaped into `(qid, score)` pairs. -/
noncomputable def searchHeap (rows : List (String × List ℝ)) (q : List ℝ)
    (k : ℕ) : List (String × ℝ) :=
  ((rows.foldl (heapStep q k) []).reverse).map fun p => (p.2, p.1)

open Classical in
/-- `_search_numpy`: `np.array(list_of_vectors, dtype=np.float32)` raises
`ValueError` when the nested lists are ragged (several different lengths);
otherwise a store whose common length differs from the query returns no
hits, and matching stores are scored by cosine with a `1e-12` additive
epsilon on both norms, sorted descending (numpy `argsort` tie order is
unspecified; no claim depends on it), truncated to `top_k`, then filtered
to strictly positive scores. -/
noncomputable def searchNumpy (rows : List (String × List ℝ)) (q : List ℝ)
    (k : ℕ) : Except String (List (String × ℝ)) :=
  let width := ((rows.head?.map fun r => r.2.length).getD 0)
  if ¬ rows.all (fun r => r.2.length = width) then
    Except.error "ValueError: setting an array element with a sequence (ragged nested sequences)"
  else if width ≠ q.length then Except.ok []
  else
    let qn := Real.sqrt (sumSqR q) + 1e-12
    let sims := rows.map fun r =>
      (r.1, dotR r.2 q / ((Real.sqrt (sumSqR r.2) + 1e-12) * qn))
    Except.ok (((sortScoreDesc (·.2) sims).take k).filter fun p => 0 < p.2)

/-- `VectorIndex.search`: empty query short-circuits; numpy path when
available and the store is non-empty; pure-Python heap path otherwise. -/
noncomputable def vectorSearch (numpyAvailable : Bool)
    (rows : List (String × List ℝ)) (q : List ℝ) (k : ℕ) :
    Except String (List (String × ℝ)) :=
  if q.isEmpty then Except.ok []
  else if numpyAvailable ∧ ¬ rows.isEmpty then searchNumpy rows q k
  else Except.ok (searchHeap rows q k)

theorem cosineSim_single_unit : cosineSim [(1 : ℝ), 0] [(1 : ℝ), 0] = 1 := by
  have hs : sumSqR [(1 : ℝ), 0] = 1 := by
    simp [sumSqR, dotR]
  simp only [cosineSim, hs, Real.sqrt_one, dotR]
  norm_num

/-- **C7 (code bug).** On a store holding vectors of two different lengths,
the numpy search path raises (`np.array` of a ragged nested list with
`dtype=np.float32` is a `ValueError`) instead of silently skipping the
mismatched vector, contradicting the spec's "mixed dimensions do not crash
queries". The pure-Python fallback on the same input behaves exactly as the
claim states: the length-3 vector is skipped and the matching vector is
returned with its cosine score. -/
theorem c7_numpy_ragged_store_raises :
    vectorSearch true [("a", [1, 0]), ("b", [1, 2, 3])] [1, 0] 10 =
      Except.error "ValueError: setting an array element with a sequence (ragged nested sequences)" ∧
    vectorSearch false [("a", [1, 0]), ("b", [1, 2, 3])] [1, 0] 10 =
      Except.ok [("a", 1)] := by
  constructor
  · simp [vectorSearch, searchNumpy]
  · have h1 : ¬ ((1 : ℝ) ≤ 0) := by norm_num
    simp [vectorSearch, searchHeap, heapStep, cosineSim_single_unit, heapPush, h1]

/-- `str.strip()` (ASCII whitespace). -/
def pyStrip (s : String) : String := String.mk (trimSpaces s.data)

/-- `searchPy` is the pure-Python path of `VectorIndex.search` (empty-query
short-circuit plus `_search_heap`); the engine model uses it throughout. The
optional numpy fast path differs only by `1e-12` norm epsilons on
homogeneous stores — and by raising on ragged stores (see C7). -/
noncomputable def searchPy (rows : List (String × List ℝ)) (q : List ℝ)
    (k : ℕ) : List (String × ℝ) :=
  if q.isEmpty then [] else searchHeap rows q k

/-! ### Configuration — `src/rag_python/types.py` (`RAGConfig`) -/

structure RAGConfig where
  dense_dim : ℕ := 512
  bm25_top_k : ℕ := 300
  dense_top_k : ℕ := 300
  image_top_k : ℕ := 300
  rrf_k : ℕ := 60
  sparse_weight : ℚ := 0.45
  dense_weight : ℚ := 0.45
  image_weight : ℚ := 0.10
  rrf_weight : ℚ := 0.15
  rerank_top_m : ℕ := 200
  final_top_n : ℕ := 20
  near_duplicate_threshold : ℚ := 0.85
  duplicate_threshold : ℚ := 0.95

def defaultConfig : RAGConfig := {}

/-! ### BM25 — `src/rag_python/bm25.py` -/

structure BM25State where
  k1 : ℚ := 1.2
  b : ℚ := 0.75
  docsTokens : List (String × List String) := []
  docLen : List (String × ℕ) := []
  inverted : List (String × List (String × ℕ)) := []
  totalDocs : ℕ := 0
  avgDocLen : ℚ := 0

/-- `defaultdict(int)` term-frequency bump (insertion order = first
occurrence). -/
def bumpCount : List (String × ℕ) → String → List (String × ℕ)
  | [], t => [(t, 1)]
  | p :: ps, t => if p.1 = t then (p.1, p.2 + 1) :: ps else p :: bumpCount ps t

def tfCounts (tokens : List String) : List (String × ℕ) :=
  tokens.foldl bumpCount []

/-- `self.inverted[term].append((qid, count))` on a `defaultdict(list)`. -/
def appendPosting : List (String × List (String × ℕ)) → String → String × ℕ →
    List (String × List (String × ℕ))
  | [], term, entry => [(term, [entry])]
  | p :: ps, term, entry =>
    if p.1 = term then (p.1, p.2 ++ [entry]) :: ps
    else p :: appendPosting ps term entry

/-- `BM25Index._rebuild`: recompute `doc_len`, `inverted`, `total_docs` and
`avg_doc_len` from `docs_tokens`. -/
def bm25Rebuild (st : BM25State) : BM25State :=
  let docs := st.docsTokens
  let totalLen := (docs.map fun p => p.2.length).sum
  let inverted := docs.foldl
    (fun inv p => (tfCounts p.2).foldl
      (fun inv tc => appendPosting inv tc.1 (p.1, tc.2)) inv) []
  let n := docs.length
  { st with
      docLen := docs.map fun p => (p.1, p.2.length)
      inverted := inverted
      totalDocs := n
      avgDocLen := if n = 0 then 0 else (totalLen : ℚ) / n }

/-- `BM25Index.add_documents`. -/
def bm25AddDocuments (st : BM25State) (rows : List (String × String)) : BM25State :=
  bm25Rebuild { st with
    docsTokens := rows.foldl (fun d r => insertD d r.1 (tokenizeStr r.2)) st.docsTokens }

/-- `defaultdict(float)` additive bump. -/
noncomputable def bumpAddR : List (String × ℝ) → String → ℝ → List (String × ℝ)
  | [], k, v => [(k, v)]
  | p :: ps, k, v => if p.1 = k then (p.1, p.2 + v) :: ps else p :: bumpAddR ps k v

/-- Score lookup with default 0 (`scores.get(qid, 0.0)`). -/
noncomputable def getScore (rows : List (String × ℝ)) (qid : String) : ℝ :=
  (lookupD rows qid).getD 0

open Classical in
/-- `BM25Index.search`: Okapi BM25 over the distinct query terms; positive
scores only, sorted descending, truncated to `top_k`. (The distinct terms
are visited in first-occurrence order; a Python `set` iterates in an
unspecified order, which only permutes tie groups of the stable sort — no
claim depends on that.) -/
noncomputable def bm25Search (st : BM25State) (query : String) (topK : ℕ) :
    List (String × ℝ) :=
  let qTerms := dedupKeys (tokenizeStr query)
  if qTerms.isEmpty ∨ st.totalDocs = 0 then []
  else
    let avgdl : ℝ := max ((st.avgDocLen : ℝ)) 1
    let scores := qTerms.foldl (fun sc term =>
      match lookupD st.inverted term with
      | none => sc
      | some posting =>
        if posting.isEmpty then sc
        else
          let df := posting.length
          let idf := Real.log (1 + ((st.totalDocs : ℝ) - df + 0.5) / (df + 0.5))
          posting.foldl (fun sc e =>
            let dl : ℝ := (max ((lookupD st.docLen e.1).getD 0) 1 : ℕ)
            let num := (e.2 : ℝ) * ((st.k1 : ℝ) + 1)
            let den := (e.2 : ℝ) + (st.k1 : ℝ) *
              (1 - (st.b : ℝ) + (st.b : ℝ) * (dl / avgdl))
            bumpAddR sc e.1 (idf * (num / den))) sc) []
    (sortScoreDesc (·.2) (scores.filter fun p => 0 < p.2)).take topK

/-! ### Per-channel scoring — `src/rag_python/scoring.py` -/

/-- `score_sparse`: empty (stripped) query short-circuits; BM25 hits are
filtered to the allowed qids. -/
noncomputable def scoreSparse (bm25 : BM25State) (queryText : String)
    (topK : ℕ) (allowed : List String) : List (String × ℝ) :=
  if pyStrip queryText = "" then []
  else (bm25Search bm25 queryText topK).filter fun x => x.1 ∈ allowed

/-- `score_dense`: query both dense indexes, merge by max per qid, restrict
to allowed, sort descending, truncate. -/
noncomputable def scoreDense (stemIndex expIndex : List (String × List ℝ))
    (qv : List ℝ) (topK : ℕ) (allowed : List String) : List (String × ℝ) :=
  if qv.isEmpty then []
  else
    let stem := searchPy stemIndex qv topK
    let exp := searchPy expIndex qv topK
    let merged := (stem ++ exp).foldl
      (fun m row => insertD m row.1 (max ((lookupD m row.1).getD (-1)) row.2)) []
    let out := merged.filter fun p => p.1 ∈ allowed
    (sortScoreDesc (·.2) out).take topK

/-- `score_image`: query the image index, translate image ids to owner
qids, drop non-allowed owners, keep the max score per owner, sort
descending (no further truncation). -/
noncomputable def scoreImage (imageIndex : List (String × List ℝ))
    (imageOwner : List (String × String)) (imageVector : Option (List ℝ))
    (topK : ℕ) (allowed : List String) : List (String × ℝ) :=
  match imageVector with
  | none => []
  | some v =>
    if v.isEmpty then []
    else
      let raw := searchPy imageIndex v topK
      let merged := raw.foldl (fun m row =>
        match lookupD imageOwner row.1 with
        | none => m
        | some qid =>
          if qid = "" ∨ qid ∉ allowed then m
          else insertD m qid (max ((lookupD m qid).getD (-1)) row.2)) []
      sortScoreDesc (·.2) merged

/-! ### Fusion — `src/rag_python/fusion.py`, `src/rag_python/scoring.py` -/

/-- `rrf_fuse`: for each ranking list and each 0-based position `i`, add
`1 / (rrf_k + i + 1)`; sort descending. -/
noncomputable def rrfFuse (rankings : List (List (String × ℝ))) (rrfK : ℕ) :
    List (String × ℝ) :=
  let merged := rankings.foldl (fun m rows =>
    rows.enum.foldl (fun m ir => bumpAddR m ir.2.1 (1 / ((rrfK : ℝ) + ir.1 + 1))) m) []
  sortScoreDesc (·.2) merged

/-- `_normalize_by_max`: empty or non-positive max yields the empty map. -/
noncomputable def normalizeByMax (rows : List (String × ℝ)) : List (String × ℝ) :=
  match rows with
  | [] => []
  | r :: rs =>
    let mx := rs.foldl (fun m p => max m p.2) r.2
    if mx ≤ 0 then []
    else (r :: rs).map fun p => (p.1, p.2 / mx)

/-- The weight reallocation at the head of `fuse_hybrid_scores`
(lines 73–78): with no image query and a positive image weight, half of the
image weight goes to each of the sparse and dense weights. -/
def effectiveWeights (c : RAGConfig) (hasImageQuery : Bool) : ℚ × ℚ × ℚ :=
  if ¬ hasImageQuery ∧ 0 < c.image_weight then
    (c.sparse_weight + c.image_weight * 0.5,
     c.dense_weight + c.image_weight * 0.5, 0)
  else (c.sparse_weight, c.dense_weight, c.image_weight)

/-- `fuse_hybrid_scores`: reallocate weights, max-normalise each channel
and the RRF combination, emit the positively-scored qids sorted
descending. -/
noncomputable def fuseHybridScores (bm25Hits denseHits imageHits : List (String × ℝ))
    (c : RAGConfig) (hasImageQuery : Bool) : List (String × ℝ) :=
  let w := effectiveWeights c hasImageQuery
  let bn := normalizeByMax bm25Hits
  let dn := normalizeByMax denseHits
  let imn := normalizeByMax imageHits
  let rrf := rrfFuse [bm25Hits, denseHits, imageHits] c.rrf_k
  let rn := normalizeByMax rrf
  let qids := dedupKeys ((bm25Hits ++ denseHits ++ imageHits ++ rrf).map (·.1))
  let out := qids.filterMap fun qid =>
    let score := (w.1 : ℝ) * getScore bn qid + (w.2.1 : ℝ) * getScore dn qid +
      (w.2.2 : ℝ) * getScore imn qid + (c.rrf_weight : ℝ) * getScore rn qid
    if 0 < score then some (qid, score) else none
  sortScoreDesc (·.2) out

/-- **C9.** When the query has no image vector and the configured image
weight is strictly positive, the effective sparse plus dense weight used by
`fuse_hybrid_scores` equals the original `sparse + dense + image` weight
sum, and the effective image weight is zero. -/
theorem fusion_weight_conservation (c : RAGConfig) (h : 0 < c.image_weight) :
    (effectiveWeights c false).1 + (effectiveWeights c false).2.1 =
        c.sparse_weight + c.dense_weight + c.image_weight ∧
      (effectiveWeights c false).2.2 = 0 := by
  have hcond : ¬ (false : Bool) ∧ 0 < c.image_weight := by
    exact ⟨by simp, h⟩
  rw [effectiveWeights, if_pos hcond]
  constructor
  · ring
  · rfl

theorem fusion_weight_conservation_witness :
    0 < defaultConfig.image_weight ∧
      ((effectiveWeights defaultConfig false).1 +
          (effectiveWeights defaultConfig false).2.1 =
        defaultConfig.sparse_weight + defaultConfig.dense_weight +
          defaultConfig.image_weight ∧
       (effectiveWeights defaultConfig false).2.2 = 0) :=
  ⟨by norm_num [defaultConfig], fusion_weight_conservation defaultConfig (by norm_num [defaultConfig])⟩

/-! ### Reranker — `src/rag_python/reranker.py` -/

/-- `_token_overlap`: distinct-token overlap over the smaller set size. -/
noncomputable def tokenOverlap (a b : String) : ℝ :=
  let sa := dedupKeys (tokenizeStr a)
  let sb := dedupKeys (tokenizeStr b)
  if sa.isEmpty ∨ sb.isEmpty then 0
  else ((sa.filter (· ∈ sb)).length : ℝ) / ((max 1 (min sa.length sb.length) : ℕ) : ℝ)

/-- `rerank_pair_score`. -/
noncomputable def rerankPairScore (dim : ℕ) (queryText docText : String)
    (denseScore : ℝ) : ℝ :=
  let overlap := tokenOverlap queryText docText
  let cos := dotR (encode dim queryText) (encode dim docText)
  clamp01R (0.5 * overlap + 0.3 * clamp01R ((cos + 1) / 2) +
    0.2 * clamp01R ((denseScore + 1) / 2))

/-! ### Data model — `src/rag_python/types.py` -/

/-- Opaque metadata values. Besides strings, numbers and booleans, the
engine's `_normalize_metadata` can store a list of strings (`skillIds`). -/
inductive MetaValue where
  | str (s : String)
  | num (q : ℚ)
  | boolV (b : Bool)
  | listS (l : List String)
deriving DecidableEq

/-- Python truthiness for metadata/filter values. -/
def truthyMeta : MetaValue → Bool
  | .str s => s ≠ ""
  | .num q => q ≠ 0
  | .boolV b => b
  | .listS l => ¬ l.isEmpty

/-- Python `==` on metadata values (`True == 1`, `False == 0`; values of
unrelated types compare unequal). -/
def pyEq : MetaValue → MetaValue → Bool
  | .str a, .str b => a = b
  | .num a, .num b => a = b
  | .num a, .boolV b => a = (if b then (1 : ℚ) else 0)
  | .boolV a, .num b => (if a then (1 : ℚ) else 0) = b
  | .boolV a, .boolV b => a = b
  | .listS a, .listS b => a = b
  | _, _ => false

/-- The `fingerprints` dict always holds exactly the keys `exact_hash` and
`template_hash`. -/
structure Fingerprints where
  exact_hash : String
  template_hash : String

structure QuestionImage where
  image_id : String
  path : Option String := none
  ocr_text : Option String := none
  caption : Option String := none
  image_vector : Option (List ℝ) := none

structure QuestionDocument where
  qid : String
  stem : String
  options : List String := []
  answer : Option String := none
  explanation : Option String := none
  images : List QuestionImage := []
  tags : List String := []
  metadata : List (String × MetaValue) := []
  fingerprints : Fingerprints
  source : Option (List (String × MetaValue)) := none

/-- `IngestedQuestion`; `status` keeps the Python string literals
`"new"`, `"exact-duplicate"`, `"near-duplicate"`. -/
structure IngestedQuestion where
  question : QuestionDocument
  status : String
  matched_qid : Option String := none
  score : Option ℝ := none

/-- `json.dumps(metadata, ensure_ascii=False)` with the default separators
`(", ", ": ")`. Escaping of JSON special characters and float rendering of
non-integer rationals are omitted: no input in this development needs
them. -/
def jsonOfMeta : MetaValue → String
  | .str s => "\"" ++ s ++ "\""
  | .num q => toString q
  | .boolV b => if b then "true" else "false"
  | .listS l => "[" ++ String.intercalate ", " (l.map fun s => "\"" ++ s ++ "\"") ++ "]"

def jsonDumpsMeta (md : List (String × MetaValue)) : String :=
  "\x7b" ++ String.intercalate ", " (md.map fun p => "\"" ++ p.1 ++ "\": " ++ jsonOfMeta p.2) ++ "\x7d"

/-! ### Engine state — `src/rag_python/engine.py` (`HybridQuestionRAGPy`)

The engine's embedder is the default `DeterministicHashEmbedder` at
dimension `config.dense_dim`; `vectors` maps each qid to its
`(stem, explanation)` vector pair, the explanation slot holding `[]` when
there is no explanation (`exp_vec or []`). -/

structure EngineState where
  config : RAGConfig
  docs : List (String × QuestionDocument) := []
  vectors : List (String × (List ℝ × List ℝ)) := []
  exactHashMap : List (String × String) := []
  templateHashMap : List (String × List String) := []
  bm25 : BM25State := {}
  stemIndex : List (String × List ℝ) := []
  explanationIndex : List (String × List ℝ) := []
  imageIndex : List (String × List ℝ) := []
  imageOwner : List (String × String) := []

def freshState (c : RAGConfig) : EngineState := { config := c }

/-- `_store_question`. -/
noncomputable def storeQuestion (s : EngineState) (q : QuestionDocument) :
    EngineState :=
  let stemVec := encode s.config.dense_dim (String.intercalate "\n" (q.stem :: q.options))
  let expVec := match q.explanation with
    | some e => if e = "" then [] else encode s.config.dense_dim e
    | none => []
  { s with
      docs := insertD s.docs q.qid q
      exactHashMap := insertD s.exactHashMap q.fingerprints.exact_hash q.qid
      templateHashMap := insertD s.templateHashMap q.fingerprints.template_hash
        (((lookupD s.templateHashMap q.fingerprints.template_hash).getD []) ++ [q.qid])
      vectors := insertD s.vectors q.qid (stemVec, expVec) }

/-- `_find_near_duplicate`: top hit of the stem vector index for the
embedding of `stem + "\n" + options`. -/
noncomputable def findNearDuplicate (s : EngineState) (q : QuestionDocument) :
    Option (String × ℝ) :=
  let qv := encode s.config.dense_dim (String.intercalate "\n" (q.stem :: q.options))
  (searchPy s.stemIndex qv 5).head?

open Classical in
/-- The `IngestedQuestion` the ingest loop emits for a row that is not an
exact duplicate. -/
noncomputable def ingestStatus (s : EngineState) (q : QuestionDocument) :
    IngestedQuestion :=
  match findNearDuplicate s q with
  | some n =>
    if ((s.config.near_duplicate_threshold : ℚ) : ℝ) ≤ n.2 then
      ⟨q, "near-duplicate", some n.1, some n.2⟩
    else ⟨q, "new", none, none⟩
  | none => ⟨q, "new", none, none⟩

/-- One iteration of the ingest loop (engine lines 60–79): an exact-hash
hit emits `exact-duplicate` with score 1 and stores nothing; otherwise the
row is stored whatever the near-duplicate outcome. -/
noncomputable def ingestOne (s : EngineState) (q : QuestionDocument) :
    IngestedQuestion × EngineState :=
  match lookupD s.exactHashMap q.fingerprints.exact_hash with
  | some m => (⟨q, "exact-duplicate", some m, some 1⟩, s)
  | none => (ingestStatus s q, storeQuestion s q)

noncomputable def ingestLoop (s : EngineState) :
    List QuestionDocument → List IngestedQuestion × EngineState
  | [] => ([], s)
  | q :: qs =>
    let r := ingestOne s q
    let rest := ingestLoop r.2 qs
    (r.1 :: rest.1, rest.2)

/-- The BM25 document text of `_rebuild_indexes`: stem twice, options,
explanation, ocr texts, captions, metadata JSON, newline-joined. -/
def bm25DocText (d : QuestionDocument) : String :=
  String.intercalate "\n"
    ([d.stem, d.stem] ++ d.options ++
     [d.explanation.getD "",
      String.intercalate " " (d.images.map fun i => i.ocr_text.getD ""),
      String.intercalate " " (d.images.map fun i => i.caption.getD ""),
      jsonDumpsMeta d.metadata])

/-- `_rebuild_indexes`: fresh BM25 and vector indexes populated from
`docs` and `vectors`; explanation vectors only when non-empty; image
vectors only when present and non-empty; `image_owner` rebuilt. -/
noncomputable def rebuildIndexes (s : EngineState) : EngineState :=
  let docs := s.docs.map (·.2)
  { s with
      bm25 := bm25AddDocuments {} (docs.map fun d => (d.qid, bm25DocText d))
      stemIndex := docs.foldl
        (fun acc d => insertD acc d.qid ((lookupD s.vectors d.qid).getD ([], [])).1) []
      explanationIndex := docs.foldl
        (fun acc d =>
          let ev := ((lookupD s.vectors d.qid).getD ([], [])).2
          if ev.isEmpty then acc else insertD acc d.qid ev) []
      imageIndex := docs.foldl
        (fun acc d => d.images.foldl
          (fun acc img =>
            match img.image_vector with
            | some v => if v.isEmpty then acc else insertD acc img.image_id v
            | none => acc) acc) []
      imageOwner := docs.foldl
        (fun acc d => d.images.foldl
          (fun acc img =>
            match img.image_vector with
            | some v => if v.isEmpty then acc else insertD acc img.image_id d.qid
            | none => acc) acc) [] }

/-- `ingest` on an already-normalized batch: run the loop, then rebuild
the indexes once at batch end. -/
noncomputable def ingestDocs (s : EngineState) (qs : List QuestionDocument) :
    List IngestedQuestion × EngineState :=
  let r := ingestLoop s qs
  (r.1, rebuildIndexes r.2)

@[simp] theorem rebuildIndexes_docs (s : EngineState) :
    (rebuildIndexes s).docs = s.docs := rfl

@[simp] theorem rebuildIndexes_exactHashMap (s : EngineState) :
    (rebuildIndexes s).exactHashMap = s.exactHashMap := rfl

@[simp] theorem rebuildIndexes_config (s : EngineState) :
    (rebuildIndexes s).config = s.config := rfl

@[simp] theorem storeQuestion_docs (s : EngineState) (q : QuestionDocument) :
    (storeQuestion s q).docs = insertD s.docs q.qid q := rfl

@[simp] theorem storeQuestion_exactHashMap (s : EngineState) (q : QuestionDocument) :
    (storeQuestion s q).exactHashMap =
      insertD s.exactHashMap q.fingerprints.exact_hash q.qid := rfl

@[simp] theorem storeQuestion_stemIndex (s : EngineState) (q : QuestionDocument) :
    (storeQuestion s q).stemIndex = s.stemIndex := rfl

@[simp] theorem storeQuestion_config (s : EngineState) (q : QuestionDocument) :
    (storeQuestion s q).config = s.config := rfl

/-- **C1.** After ingesting `d` into a bank whose exact-hash map does not
yet know `d`'s hash, ingesting any row `d2` with the same `exact_hash`
fingerprint yields exactly one `IngestedQuestion` with status
`"exact-duplicate"`, `matched_qid = d.qid` and `score = 1.0`, and `d2` is
not stored: the docs map — in particular its size — is unchanged. -/
theorem c1_exact_duplicate_suppression (s : EngineState) (d d2 : QuestionDocument)
    (hfresh : lookupD s.exactHashMap d.fingerprints.exact_hash = none)
    (hsame : d2.fingerprints.exact_hash = d.fingerprints.exact_hash) :
    (ingestDocs (ingestDocs s [d]).2 [d2]).1 =
        [⟨d2, "exact-duplicate", some d.qid, some 1⟩] ∧
      (ingestDocs (ingestDocs s [d]).2 [d2]).2.docs = (ingestDocs s [d]).2.docs ∧
      (ingestDocs (ingestDocs s [d]).2 [d2]).2.docs.length =
        (ingestDocs s [d]).2.docs.length := by
  have hstate1 : (ingestDocs s [d]).2 = rebuildIndexes (storeQuestion s d) := by
    simp [ingestDocs, ingestLoop, ingestOne, hfresh]
  generalize hs1 : (ingestDocs s [d]).2 = s1
  rw [hs1] at hstate1
  have hlook : lookupD s1.exactHashMap d2.fingerprints.exact_hash = some d.qid := by
    rw [hstate1, rebuildIndexes_exactHashMap, storeQuestion_exactHashMap, hsame]
    exact lookupD_insertD_self _ _ _
  have hone : ingestOne s1 d2 =
      (⟨d2, "exact-duplicate", some d.qid, some 1⟩, s1) := by
    simp [ingestOne, hlook]
  refine ⟨?_, ?_, ?_⟩
  · simp [ingestDocs, ingestLoop, hone]
  · simp [ingestDocs, ingestLoop, hone]
  · simp [ingestDocs, ingestLoop, hone]

def docA : QuestionDocument :=
  { qid := "a"
    stem := "Find the derivative of x^2 + 3x."
    options := ["2x+3", "x+3", "2x", "3x"]
    answer := some "A"
    fingerprints :=
      { exact_hash := buildExactHash "Find the derivative of x^2 + 3x."
          ["2x+3", "x+3", "2x", "3x"] (some "A")
        template_hash := buildTemplateHash "Find the derivative of x^2 + 3x." } }

def docB : QuestionDocument :=
  { qid := "b"
    stem := "Find the derivative of x^2 + 3x."
    options := ["2x+3", "x+3", "2x", "3x"]
    answer := some "A"
    fingerprints :=
      { exact_hash := buildExactHash "Find the derivative of x^2 + 3x."
          ["2x+3", "x+3", "2x", "3x"] (some "A")
        template_hash := buildTemplateHash "Find the derivative of x^2 + 3x." } }

theorem c1_exact_duplicate_suppression_witness :
    lookupD (freshState defaultConfig).exactHashMap docA.fingerprints.exact_hash = none ∧
      docB.fingerprints.exact_hash = docA.fingerprints.exact_hash ∧
      ((ingestDocs (ingestDocs (freshState defaultConfig) [docA]).2 [docB]).1 =
          [⟨docB, "exact-duplicate", some docA.qid, some 1⟩] ∧
        (ingestDocs (ingestDocs (freshState defaultConfig) [docA]).2 [docB]).2.docs =
          (ingestDocs (freshState defaultConfig) [docA]).2.docs ∧
        (ingestDocs (ingestDocs (freshState defaultConfig) [docA]).2 [docB]).2.docs.length =
          (ingestDocs (freshState defaultConfig) [docA]).2.docs.length) :=
  ⟨rfl, rfl, c1_exact_duplicate_suppression (freshState defaultConfig) docA docB rfl rfl⟩

/-- **C10.** Within one ingest batch, the exact-duplicate check consults
the live exact-hash map: if `d1` and `d2` in the same batch share an exact
hash, `d2` is reported `"exact-duplicate"` against `d1` and is not stored
(the final docs map holds `d1` only) — while the near-duplicate check runs
against the pre-batch index state, since `_store_question` leaves the stem
vector index untouched (it is only rebuilt at batch end). -/
theorem c10_intra_batch_exact_dup_sees_live_map (s : EngineState)
    (d1 d2 : QuestionDocument)
    (hfresh : lookupD s.exactHashMap d1.fingerprints.exact_hash = none)
    (hsame : d2.fingerprints.exact_hash = d1.fingerprints.exact_hash) :
    (ingestDocs s [d1, d2]).1[1]? =
        some ⟨d2, "exact-duplicate", some d1.qid, some 1⟩ ∧
      (ingestDocs s [d1, d2]).2.docs = insertD s.docs d1.qid d1 ∧
      ∀ q : QuestionDocument,
        findNearDuplicate (storeQuestion s d1) q = findNearDuplicate s q := by
  have hone1 : ingestOne s d1 = (ingestStatus s d1, storeQuestion s d1) := by
    simp [ingestOne, hfresh]
  have hlook : lookupD (insertD s.exactHashMap d1.fingerprints.exact_hash d1.qid)
      d2.fingerprints.exact_hash = some d1.qid := by
    rw [hsame]
    exact lookupD_insertD_self _ _ _
  have hone2 : ingestOne (storeQuestion s d1) d2 =
      (⟨d2, "exact-duplicate", some d1.qid, some 1⟩, storeQuestion s d1) := by
    simp [ingestOne, hlook]
  refine ⟨?_, ?_, fun q => rfl⟩
  · simp [ingestDocs, ingestLoop, hone1, hone2]
  · simp [ingestDocs, ingestLoop, hone1, hone2]

theorem c10_intra_batch_exact_dup_sees_live_map_witness :
    lookupD (freshState defaultConfig).exactHashMap docA.fingerprints.exact_hash = none ∧
      docB.fingerprints.exact_hash = docA.fingerprints.exact_hash ∧
      ((ingestDocs (freshState defaultConfig) [docA, docB]).1[1]? =
          some ⟨docB, "exact-duplicate", some docA.qid, some 1⟩ ∧
        (ingestDocs (freshState defaultConfig) [docA, docB]).2.docs =
          insertD (freshState defaultConfig).docs docA.qid docA ∧
        ∀ q : QuestionDocument,
          findNearDuplicate (storeQuestion (freshState defaultConfig) docA) q =
            findNearDuplicate (freshState defaultConfig) q) :=
  ⟨rfl, rfl,
    c10_intra_batch_exact_dup_sees_live_map (freshState defaultConfig) docA docB rfl rfl⟩

/-- Helper: the ingest loop never touches the stored document of a qid no
batch row carries. -/
theorem ingestLoop_docs_frame (qs : List QuestionDocument) (qid : String)
    (h : ∀ q ∈ qs, q.qid ≠ qid) :
    ∀ s : EngineState, lookupD (ingestLoop s qs).2.docs qid = lookupD s.docs qid := by
  induction qs with
  | nil => intro s; rfl
  | cons q qs ih =>
    intro s
    have hq : q.qid ≠ qid := h q (by simp)
    have hrest : ∀ q' ∈ qs, q'.qid ≠ qid := fun q' hq' => h q' (by simp [hq'])
    simp only [ingestLoop]
    rw [ih hrest]
    unfold ingestOne
    cases hl : lookupD s.exactHashMap q.fingerprints.exact_hash with
    | some m => rfl
    | none =>
      simp only [storeQuestion_docs]
      exact lookupD_insertD_ne _ _ _ _ (Ne.symm hq)

/-- **C8 (amended).** A document stored before an ingest call is unchanged
by the call provided no row of the batch carries its qid. (The original
claim fails when a batch row reuses the qid: see the counterexample —
`_store_question` overwrites `docs[qid]`.) -/
theorem c8_docs_frame_without_qid_reuse (s : EngineState)
    (qs : List QuestionDocument) (qid : String)
    (h : ∀ q ∈ qs, q.qid ≠ qid) :
    lookupD (ingestDocs s qs).2.docs qid = lookupD s.docs qid := by
  simp only [ingestDocs, rebuildIndexes_docs]
  exact ingestLoop_docs_frame qs qid h s

def docX : QuestionDocument :=
  { qid := "a", stem := "x"
    fingerprints :=
      { exact_hash := buildExactHash "x" [] none
        template_hash := buildTemplateHash "x" } }

def docY : QuestionDocument :=
  { qid := "a", stem := "y"
    fingerprints :=
      { exact_hash := buildExactHash "y" [] none
        template_hash := buildTemplateHash "y" } }

def docW : QuestionDocument :=
  { qid := "b", stem := "w"
    fingerprints :=
      { exact_hash := buildExactHash "w" [] none
        template_hash := buildTemplateHash "w" } }

theorem c8_docs_frame_without_qid_reuse_witness :
    (∀ q ∈ [docW], q.qid ≠ "a") ∧
      lookupD (ingestDocs (ingestDocs (freshState defaultConfig) [docX]).2 [docW]).2.docs "a" =
        lookupD (ingestDocs (freshState defaultConfig) [docX]).2.docs "a" :=
  ⟨by intro q hq; rw [List.mem_singleton] at hq; subst hq; decide,
    c8_docs_frame_without_qid_reuse _ [docW] "a"
      (by intro q hq; rw [List.mem_singleton] at hq; subst hq; decide)⟩

/-- **C8 (counterexample).** Documents are not immutable under qid reuse:
after ingesting `docX` (qid `"a"`, stem `"x"`), ingesting `docY` — the same
qid `"a"` with different content and hence a different exact hash —
replaces the stored document: the doc under `"a"` has stem `"x"` before the
second ingest and stem `"y"` after it. -/
theorem c8_qid_reuse_overwrites_document :
    (lookupD (ingestDocs (freshState defaultConfig) [docX]).2.docs "a").map
        (fun d => d.stem) = some "x" ∧
      (lookupD (ingestDocs (ingestDocs (freshState defaultConfig) [docX]).2 [docY]).2.docs
          "a").map (fun d => d.stem) = some "y" := by
  have hfresh : lookupD (freshState defaultConfig).exactHashMap
      docX.fingerprints.exact_hash = none := rfl
  have hstate1 : (ingestDocs (freshState defaultConfig) [docX]).2 =
      rebuildIndexes (storeQuestion (freshState defaultConfig) docX) := by
    simp [ingestDocs, ingestLoop, ingestOne, hfresh]
  have hne : docY.fingerprints.exact_hash ≠ docX.fingerprints.exact_hash := by decide
  have hlook2 : lookupD (ingestDocs (freshState defaultConfig) [docX]).2.exactHashMap
      docY.fingerprints.exact_hash = none := by
    rw [hstate1, rebuildIndexes_exactHashMap, storeQuestion_exactHashMap]
    rw [lookupD_insertD_ne _ _ _ _ hne]
    rfl
  constructor
  · rw [hstate1, rebuildIndexes_docs, storeQuestion_docs]
    rfl
  · generalize hs1 : (ingestDocs (freshState defaultConfig) [docX]).2 = s1 at hstate1 hlook2
    have hone2 : ingestOne s1 docY = (ingestStatus s1 docY, storeQuestion s1 docY) := by
      simp [ingestOne, hlook2]
    simp only [ingestDocs, ingestLoop, hone2, rebuildIndexes_docs, storeQuestion_docs]
    rw [hstate1, rebuildIndexes_docs, storeQuestion_docs]
    rfl

/-! ### Raw ingestion rows — `_normalize_input` and helpers
(engine lines 245–353)

Only the `questions` list of `IngestionInput` is modelled; the `files` path
goes through the external extractor, which the spec places out of the
core's scope (§1), and no claim touches it. -/

/-- `f"{value}"` rendering of a metadata value (used by the qid derivation
`f"q_{row.get('id')}"`). -/
def pyStrMeta : MetaValue → String
  | .str s => s
  | .num q => toString q
  | .boolV b => if b then "True" else "False"
  | .listS l => "[" ++ String.intercalate ", " (l.map fun s => "'" ++ s ++ "'") ++ "]"

/-- `a or b` on optional strings (`None` and `""` both fall through). -/
def pyOrStr (a b : Option String) : Option String :=
  match a with
  | some s => if s = "" then b else some s
  | none => b

def charUpper (c : Char) : Char :=
  if 'a' ≤ c ∧ c ≤ 'z' then Char.ofNat (c.toNat - 32) else c

/-- `str.upper()` on ASCII. -/
def pyUpper (s : String) : String := String.mk (s.data.map charUpper)

/-- The raw options value: absent, a list, or an `{A,B,C,D}` mapping. -/
inductive RawOptions where
  | noneO
  | listO (l : List String)
  | mapO (a b c d : Option String)

/-- `_normalize_options`. -/
def normalizeOptions : RawOptions → List String
  | .noneO => []
  | .listO l => (l.map pyStrip).filter (· ≠ "")
  | .mapO a b c d =>
    [a, b, c, d].filterMap fun o => o.bind fun v =>
      let t := pyStrip v
      if t = "" then none else some t

/-- A string-valued dict entry that distinguishes an absent key from a key
present with value `None`: `img.get(key, '')` yields the `''` default only
when the key is absent, but returns `None` — which an f-string renders as
`"None"` — when the key is present with a null value. -/
inductive PyStrField where
  | absent
  | null
  | str (s : String)

/-- The value `_normalize_images` stores from a plain `img.get(key)`
(absent and null both read back as `None`). -/
def PyStrField.toOpt : PyStrField → Option String
  | .absent => none
  | .null => none
  | .str s => s

/-- `f"{img.get(key, '')}"`: the `''` default for an absent key, the
rendering `"None"` for a present null, the string itself otherwise. -/
def PyStrField.fmtDefault : PyStrField → String
  | .absent => ""
  | .null => "None"
  | .str s => s

/-- A raw image dict. The camelCase fields are the keys `_normalize_images`
reads; the snake_case fields are the keys `asdict` writes in
`save_questions_jsonl` output — the loader never reads them (`path` and
`caption` are the only shared keys). `caption` and `ocrText` are read both
through `img.get(key, '')` (for the re-synthesised embedding text) and
through a plain `img.get(key)` (for the stored field), so they keep the
absent/null distinction; `imageId`, `path` and `imageVector` are only read
through plain `get`, where absent and null coincide. -/
structure RawImageRow where
  imageId : Option String := none
  path : Option String := none
  ocrText : PyStrField := .absent
  caption : PyStrField := .absent
  imageVector : Option (List ℝ) := none
  image_id : Option String := none
  ocr_text : Option String := none
  image_vector : Option (List ℝ) := none

/-- A raw question row, with exactly the keys `_normalize_input`,
`_resolve_stem`, `_resolve_explanation`, `_normalize_options`,
`_normalize_answer`, `_normalize_metadata` and `_normalize_images` read. -/
structure RawRow where
  qid : Option String := none
  id : Option MetaValue := none
  stem : Option String := none
  stem_md : Option String := none
  options : RawOptions := .noneO
  answer : Option String := none
  explanation : Option String := none
  explanation_md : Option String := none
  images : List RawImageRow := []
  tags : List String := []
  metadata : List (String × MetaValue) := []
  area : Option MetaValue := none
  subject : Option MetaValue := none
  topic : Option MetaValue := none
  difficulty : Option MetaValue := none
  skillIds : Option (List String) := none

/-- `_resolve_stem`: `str(row.get("stem") or row.get("stem_md") or "").strip()`. -/
def resolveStem (r : RawRow) : String :=
  pyStrip ((pyOrStr r.stem r.stem_md).getD "")

/-- `_resolve_explanation`: `explanation`, else `explanation_md` (only when
the former is `None`), stripped, empty becoming `None`. -/
def resolveExplanation (r : RawRow) : Option String :=
  match r.explanation.orElse (fun _ => r.explanation_md) with
  | none => none
  | some v =>
    let t := pyStrip v
    if t = "" then none else some t

/-- `_normalize_answer`. -/
def normalizeAnswer : Option String → Option String
  | none => none
  | some a =>
    let t := pyUpper (pyStrip a)
    if t = "" then none else some t

/-- `metadata[key] = value` only when the key is absent (appends at the
end, as a Python dict does for a new key). -/
def addIfAbsent (md : List (String × MetaValue)) (k : String)
    (v : Option MetaValue) : List (String × MetaValue) :=
  match v with
  | none => md
  | some value => if (lookupD md k).isSome then md else md ++ [(k, value)]

/-- `_normalize_metadata`: copy `row["metadata"]`, then promote `id` (as
`source_id`), `area`, `subject`, `topic`, `difficulty` and `skillIds` when
present and not already in the metadata. -/
def normalizeMetadata (r : RawRow) : List (String × MetaValue) :=
  let md := r.metadata
  let md := addIfAbsent md "source_id" r.id
  let md := addIfAbsent md "area" r.area
  let md := addIfAbsent md "subject" r.subject
  let md := addIfAbsent md "topic" r.topic
  let md := addIfAbsent md "difficulty" r.difficulty
  let md := match r.skillIds with
    | some l => addIfAbsent md "skillIds" (some (.listS l))
    | none => md
  md

/-- `_normalize_images` on one image (0-based `idx`): default the image id
to `f"{qid}_img_{idx+1}"`, synthesise the vector from
`f"{img.get('caption', '')}\n{img.get('ocrText', '')}"` when `imageVector`
is absent or empty (a present-null caption or OCR text renders as
`"None"` in that text). -/
noncomputable def normalizeImage (dim : ℕ) (qid : String) (idx : ℕ)
    (img : RawImageRow) : QuestionImage :=
  let imageId := match img.imageId with
    | some s => if s = "" then qid ++ "_img_" ++ toString (idx + 1) else s
    | none => qid ++ "_img_" ++ toString (idx + 1)
  let synth := encode dim (img.caption.fmtDefault ++ "\n" ++ img.ocrText.fmtDefault)
  let vec := match img.imageVector with
    | some v => if v.isEmpty then synth else v
    | none => synth
  { image_id := imageId
    path := img.path
    ocr_text := img.ocrText.toOpt
    caption := img.caption.toOpt
    image_vector := some vec }

noncomputable def normalizeImages (dim : ℕ) (qid : String)
    (rows : List RawImageRow) : List QuestionImage :=
  rows.enum.map fun p => normalizeImage dim qid p.1 p.2

/-- `_normalize_input` on one row (`i` is the batch index): derive the qid
(`row["qid"]`, else `q_<id>`, else `q_<stable_hash(stem + ":" + i)>`) and
build the `QuestionDocument` with freshly computed fingerprints. -/
noncomputable def normalizeRow (dim : ℕ) (i : ℕ) (r : RawRow) : QuestionDocument :=
  let stem := resolveStem r
  let derived := match r.id with
    | some v => "q_" ++ pyStrMeta v
    | none => "q_" ++ stableHash (stem ++ ":" ++ toString i)
  let qid := match r.qid with
    | some q => if q = "" then derived else q
    | none => derived
  let options := normalizeOptions r.options
  let answer := normalizeAnswer r.answer
  { qid := qid
    stem := stem
    options := options
    answer := answer
    explanation := resolveExplanation r
    images := normalizeImages dim qid r.images
    tags := r.tags
    metadata := normalizeMetadata r
    fingerprints :=
      { exact_hash := buildExactHash stem options answer
        template_hash := buildTemplateHash stem } }

noncomputable def normalizeInput (dim : ℕ) (rows : List RawRow) :
    List QuestionDocument :=
  rows.enum.map fun p => normalizeRow dim p.1 p.2

/-- `ingest` on a raw `questions` batch. -/
noncomputable def ingest (s : EngineState) (rows : List RawRow) :
    List IngestedQuestion × EngineState :=
  ingestDocs s (normalizeInput s.config.dense_dim rows)

/-! ### Persistence — `src/rag_python/local_store.py`,
`save_local_bank` / `load_local_bank` (engine lines 216–233) -/

/-- The raw-row image of one serialised `QuestionImage` as
`save_questions_jsonl` writes it (`asdict` produces snake_case keys; the
loader's camelCase keys are absent). -/
def imageToRaw (img : QuestionImage) : RawImageRow :=
  { path := img.path
    caption := match img.caption with
      | some c => .str c
      | none => .null
    image_id := some img.image_id
    ocr_text := img.ocr_text
    image_vector := img.image_vector }

/-- The raw-row image of one serialised `QuestionDocument`: every dataclass
field is written, but of the written keys only `qid`, `stem`, `options`,
`answer`, `explanation`, `images`, `tags` and `metadata` are ever read back
by `_normalize_input`; `fingerprints` and `source` are written and never
read. -/
def docToRaw (d : QuestionDocument) : RawRow :=
  { qid := some d.qid
    stem := some d.stem
    options := .listO d.options
    answer := d.answer
    explanation := d.explanation
    images := d.images.map imageToRaw
    tags := d.tags
    metadata := d.metadata }

/-- `save_local_bank`: one row per document of `docs.values()`. -/
def saveRows (s : EngineState) : List RawRow := s.docs.map fun p => docToRaw p.2

/-- `load_local_bank` on the parsed rows of the file: reset the document
maps and replay the batch through `ingest` (the derived indexes are rebuilt
at the end of that ingest). -/
noncomputable def loadLocalBank (s : EngineState) (rows : List RawRow) :
    EngineState :=
  (ingest
    { s with
        docs := []
        vectors := []
        exactHashMap := []
        templateHashMap := [] }
    rows).2

/-- A document as the file-extraction path produces it: image supplied with
an explicit id and vector, `source` recording the originating file. -/
def docImgSrc : QuestionDocument :=
  { qid := "a"
    stem := "Find the area of the shaded region."
    images := [{ image_id := "i1", image_vector := some [1, 0] }]
    metadata := [("sourceMimeType", .str "text/plain"), ("scanned", .boolV false)]
    fingerprints :=
      { exact_hash := buildExactHash "Find the area of the shaded region." [] none
        template_hash := buildTemplateHash "Find the area of the shaded region." }
    source := some [("fileId", .str "f1"), ("questionNo", .num 1)] }

noncomputable def c3BankBefore : EngineState :=
  (ingestDocs (freshState defaultConfig) [docImgSrc]).2

noncomputable def c3BankAfter : EngineState :=
  loadLocalBank (freshState defaultConfig) (saveRows c3BankBefore)

/-- **C3 (code bug).** The save/load round trip preserves the number of
documents and each document's `exact_hash`, but not documents that carry
images or a `source`: `asdict` writes snake_case image keys
(`image_id`, `image_vector`, `ocr_text`) which `_normalize_images` never
reads (it reads `imageId`, `imageVector`, `ocrText`), so the reloaded image
gets a synthesised id (`"a_img_1"` instead of `"i1"`) and a re-embedded
vector in place of the stored `[1, 0]`: the saved null caption is read back
by `img.get('caption', '')` as Python `None` and renders as `"None"`, and
the absent `ocrText` key takes the `''` default, so the replacement vector
is `encode 512 "None\n"` — a 512-dimensional unit vector on the token
`"none"` — changing image-channel retrieval; the `source` field is dropped
entirely. -/
theorem c3_roundtrip_loses_images_and_source :
    c3BankAfter.docs.length = c3BankBefore.docs.length ∧
      ((lookupD c3BankAfter.docs "a").map fun d => d.fingerprints.exact_hash) =
        ((lookupD c3BankBefore.docs "a").map fun d => d.fingerprints.exact_hash) ∧
      ((lookupD c3BankBefore.docs "a").map fun d => d.images.map fun i => i.image_id) =
        some ["i1"] ∧
      ((lookupD c3BankAfter.docs "a").map fun d => d.images.map fun i => i.image_id) =
        some ["a_img_1"] ∧
      ((lookupD c3BankBefore.docs "a").map fun d => d.source) =
        some (some [("fileId", .str "f1"), ("questionNo", .num 1)]) ∧
      ((lookupD c3BankAfter.docs "a").map fun d => d.source) = some none ∧
      ((lookupD c3BankBefore.docs "a").map fun d => d.images.map fun i => i.image_vector) =
        some [some [1, 0]] ∧
      ((lookupD c3BankAfter.docs "a").map fun d => d.images.map fun i => i.image_vector) =
        some [some (encode 512 "None\n")] ∧
      Real.sqrt (sumSqR (encode 512 "None\n")) = 1 ∧
      encode 512 "None\n" ≠ [1, 0] := by
  refine ⟨rfl, rfl, rfl, rfl, rfl, rfl, rfl, rfl, ?_, ?_⟩
  · rw [sumSqR_encode 512 "None\n" (by decide), Real.sqrt_one]
  · intro h
    have hl := congrArg List.length h
    rw [length_encode] at hl
    simp at hl

/-! ### Queries and filtering — engine `retrieve`, `_filter_qids`,
`_resolve_query_text`, `_classify`, `_reason_text` (lines 85–171, 409–455)

`QueryInput.filters` is a dict of which the engine reads exactly six keys;
a key that is absent and a key present with value `None` are
indistinguishable to the code (`f.get(key)`), so both are `none` here.
Unknown filter keys are never read and are not modelled. -/

structure QueryFilters where
  subject : Option MetaValue := none
  gradeLevel : Option MetaValue := none
  difficulty : Option MetaValue := none
  questionType : Option MetaValue := none
  examBoard : Option MetaValue := none
  year : Option MetaValue := none

structure QueryInput where
  text : Option String := none
  image_vector : Option (List ℝ) := none
  question_id : Option String := none
  filters : QueryFilters := {}
  top_k : Option ℕ := none
  top_m : Option ℕ := none
  top_n : Option ℕ := none

structure RetrievalResult where
  qid : String
  score : ℝ
  bm25_score : Option ℝ
  dense_score : Option ℝ
  image_score : Option ℝ
  rerank_score : ℝ
  duplicate_class : String
  reason : String
  question : QuestionDocument

structure RetrievalCounts where
  bm25Candidates : ℕ
  denseCandidates : ℕ
  imageCandidates : ℕ
  fusedCandidates : ℕ
  rerankedCandidates : ℕ
  finalResults : ℕ

/-- `RetrievalResponse` without the wall-clock `took_ms` field. -/
structure RetrievalResponse where
  query : QueryInput
  counts : RetrievalCounts
  results : List RetrievalResult

/-- One string-keyed clause of `_filter_qids`:
`if f.get(key) and md.get(key) != f.get(key): continue` — the document
passes unless the filter value is truthy and differs from (or is missing
in) the metadata. -/
def passTruthyKey (md : List (String × MetaValue)) (f : Option MetaValue)
    (key : String) : Bool :=
  match f with
  | none => true
  | some v =>
    if truthyMeta v then
      match lookupD md key with
      | some m => pyEq m v
      | none => false
    else true

/-- The `year` clause: `if f.get("year") is not None and md.get("year") != f.get("year")`. -/
def passYearKey (md : List (String × MetaValue)) (f : Option MetaValue) : Bool :=
  match f with
  | none => true
  | some v =>
    match lookupD md "year" with
    | some m => pyEq m v
    | none => false

/-- The per-document condition of `_filter_qids`. -/
def filterOk (f : QueryFilters) (md : List (String × MetaValue)) : Bool :=
  passTruthyKey md f.subject "subject" &&
  passTruthyKey md f.gradeLevel "gradeLevel" &&
  passTruthyKey md f.difficulty "difficulty" &&
  passTruthyKey md f.questionType "questionType" &&
  passTruthyKey md f.examBoard "examBoard" &&
  passYearKey md f.year

/-- `_filter_qids`: the qids of the documents passing all filters (a Python
set; modelled as the list of passing qids, used only through
membership). -/
def filterQids (s : EngineState) (q : QueryInput) : List String :=
  ((s.docs.map (·.2)).filter fun d => filterOk q.filters d.metadata).map (·.qid)

/-- `_resolve_query_text`. -/
def resolveQueryText (s : EngineState) (q : QueryInput) : String :=
  let fromQid :=
    match q.question_id with
    | some qidv =>
      if qidv = "" then ""
      else
        match lookupD s.docs qidv with
        | some d => d.stem
        | none => ""
    | none => ""
  match q.text with
  | some t => if pyStrip t ≠ "" then pyStrip t else fromQid
  | none => fromQid

/-- `query.top_k or default` (`0` is falsy). -/
def pyOrNat (a : Option ℕ) (b : ℕ) : ℕ :=
  match a with
  | some n => if n = 0 then b else n
  | none => b

def topKOf (s : EngineState) (q : QueryInput) : ℕ := pyOrNat q.top_k s.config.bm25_top_k
def topMOf (s : EngineState) (q : QueryInput) : ℕ := pyOrNat q.top_m s.config.rerank_top_m
def topNOf (s : EngineState) (q : QueryInput) : ℕ := pyOrNat q.top_n s.config.final_top_n

noncomputable def bm25HitsOf (s : EngineState) (q : QueryInput) : List (String × ℝ) :=
  scoreSparse s.bm25 (resolveQueryText s q) (topKOf s q) (filterQids s q)

/-- `self.embedder.encode(query_text) if query_text else []`. -/
noncomputable def qVectorOf (s : EngineState) (q : QueryInput) : List ℝ :=
  let t := resolveQueryText s q
  if t = "" then [] else encode s.config.dense_dim t

noncomputable def denseHitsOf (s : EngineState) (q : QueryInput) : List (String × ℝ) :=
  scoreDense s.stemIndex s.explanationIndex (qVectorOf s q) s.config.dense_top_k
    (filterQids s q)

noncomputable def imageHitsOf (s : EngineState) (q : QueryInput) : List (String × ℝ) :=
  scoreImage s.imageIndex s.imageOwner q.image_vector s.config.image_top_k
    (filterQids s q)

/-- `bool(query.image_vector)`. -/
def hasImageQuery (q : QueryInput) : Bool :=
  match q.image_vector with
  | some v => ¬ v.isEmpty
  | none => false

noncomputable def fusedOf (s : EngineState) (q : QueryInput) : List (String × ℝ) :=
  fuseHybridScores (bm25HitsOf s q) (denseHitsOf s q) (imageHitsOf s q) s.config
    (hasImageQuery q)

/-- One row of the engine's `reranked` list. -/
structure RerankRow where
  qid : String
  score : ℝ
  rerank_score : ℝ
  bm25_score : Option ℝ
  dense_score : ℝ
  image_score : Option ℝ
  question : QuestionDocument

/-- The rerank loop over `fused[:top_m]`: skip candidates without a stored
doc, score against `stem + "\n" + options + "\n" + (explanation or "")`,
defaulting the dense score to `0.0` when the dense channel has none.
(`bm25_map`/`dense_map`/`image_map` are dict views of the hit lists, whose
qids are distinct, so first-match lookup coincides with them.) -/
noncomputable def rerankRowsOf (s : EngineState) (q : QueryInput) : List RerankRow :=
  ((fusedOf s q).take (topMOf s q)).filterMap fun cand =>
    (lookupD s.docs cand.1).map fun doc =>
      let docText := String.intercalate "\n"
        (doc.stem :: (doc.options ++ [doc.explanation.getD ""]))
      let denseScore := getScore (denseHitsOf s q) doc.qid
      { qid := doc.qid
        score := cand.2
        rerank_score := rerankPairScore s.config.dense_dim (resolveQueryText s q)
          docText denseScore
        bm25_score := lookupD (bm25HitsOf s q) doc.qid
        dense_score := denseScore
        image_score := lookupD (imageHitsOf s q) doc.qid
        question := doc }

/-- `reranked.sort(key=rerank_score, reverse=True)`. -/
noncomputable def rerankedOf (s : EngineState) (q : QueryInput) : List RerankRow :=
  sortScoreDesc (·.rerank_score) (rerankRowsOf s q)

open Classical in
/-- `_classify`. -/
noncomputable def classifyScore (c : RAGConfig) (score : ℝ) : String :=
  if ((c.duplicate_threshold : ℚ) : ℝ) ≤ score then "duplicate"
  else if ((c.near_duplicate_threshold : ℚ) : ℝ) ≤ score then "near-duplicate"
  else if (0.65 : ℝ) ≤ score then "similar"
  else "related"

/-- `f"{x:.3f}"` via rounding to thousandths (the difference between
printf's round-half-even and `round` is immaterial here: no claim inspects
a rendered score). -/
noncomputable def fmt3 (x : ℝ) : String :=
  let n : ℤ := round (x * 1000)
  let a := n.natAbs
  (if n < 0 then "-" else "") ++ toString (a / 1000) ++ "." ++
    (if a % 1000 < 10 then "00" else if a % 1000 < 100 then "0" else "") ++
    toString (a % 1000)

/-- `_reason_text`: `bm25=` when present, always `dense=` (the rerank loop
stores a float, never `None`), `image=` when present, always `rerank=`. -/
noncomputable def reasonText (row : RerankRow) : String :=
  String.intercalate ", "
    ((match row.bm25_score with | some v => ["bm25=" ++ fmt3 v] | none => []) ++
     ["dense=" ++ fmt3 row.dense_score] ++
     (match row.image_score with | some v => ["image=" ++ fmt3 v] | none => []) ++
     ["rerank=" ++ fmt3 row.rerank_score])

/-- `reranked[:top_n]` mapped into `RetrievalResult`s; the result's
`dense_score` is `some row.dense_score` — the rerank loop's float — never
`none`. -/
noncomputable def resultsOf (s : EngineState) (q : QueryInput) : List RetrievalResult :=
  ((rerankedOf s q).take (topNOf s q)).map fun row =>
    { qid := row.qid
      score := row.score
      bm25_score := row.bm25_score
      dense_score := some row.dense_score
      image_score := row.image_score
      rerank_score := row.rerank_score
      duplicate_class := classifyScore s.config row.rerank_score
      reason := reasonText row
      question := row.question }

/-- `retrieve`: an empty filtered set short-circuits to an empty response
with zero counts. -/
noncomputable def retrieve (s : EngineState) (q : QueryInput) : RetrievalResponse :=
  if (filterQids s q).isEmpty then
    { query := q, counts := ⟨0, 0, 0, 0, 0, 0⟩, results := [] }
  else
    { query := q
      counts :=
        ⟨(bm25HitsOf s q).length, (denseHitsOf s q).length, (imageHitsOf s q).length,
         (fusedOf s q).length, (rerankedOf s q).length, (resultsOf s q).length⟩
      results := resultsOf s q }


theorem rerankRow_fields (s : EngineState) (q : QueryInput) (row : RerankRow)
    (h : row ∈ rerankRowsOf s q) :
    row.bm25_score = lookupD (bm25HitsOf s q) row.qid ∧
      row.dense_score = getScore (denseHitsOf s q) row.qid ∧
      row.image_score = lookupD (imageHitsOf s q) row.qid := by
  unfold rerankRowsOf at h
  rw [List.mem_filterMap] at h
  obtain ⟨cand, _, hmap⟩ := h
  cases hl : lookupD s.docs cand.1 with
  | none => rw [hl] at hmap; simp at hmap
  | some doc =>
    rw [hl] at hmap
    simp only [Option.map_some'] at hmap
    rw [← Option.some.inj hmap]
    exact ⟨rfl, rfl, rfl⟩

/-- **C4 (amended).** Every retrieval result reports `bm25_score` and
`image_score` as the (optional) score its channel produced for the
result's qid — null exactly when the channel produced none — while
`dense_score` is always `some` of the rerank loop's dense value, which is
`0.0` (not null) when the dense channel produced no score. -/
theorem c4_channel_score_reporting (s : EngineState) (q : QueryInput) :
    (retrieve s q).results.Forall fun r =>
      r.bm25_score = lookupD (bm25HitsOf s q) r.qid ∧
        r.dense_score = some (getScore (denseHitsOf s q) r.qid) ∧
        r.image_score = lookupD (imageHitsOf s q) r.qid := by
  rw [List.forall_iff_forall_mem]
  intro r hr
  unfold retrieve at hr
  rw [apply_ite RetrievalResponse.results] at hr
  split at hr
  · simp at hr
  · simp only at hr
    unfold resultsOf at hr
    rw [List.mem_map] at hr
    obtain ⟨row, hrow, hr⟩ := hr
    have hmem : row ∈ rerankedOf s q := List.take_subset _ _ hrow
    unfold rerankedOf at hmem
    rw [mem_sortScoreDesc] at hmem
    obtain ⟨hb, hd, hi⟩ := rerankRow_fields s q row hmem
    rw [← hr]
    exact ⟨hb, by rw [hd], hi⟩



def docImgOnly : QuestionDocument :=
  { qid := "a"
    stem := "circle"
    images := [{ image_id := "i1", image_vector := some [1] }]
    fingerprints :=
      { exact_hash := buildExactHash "circle" [] none
        template_hash := buildTemplateHash "circle" } }

noncomputable def c4Bank : EngineState :=
  (ingestDocs (freshState defaultConfig) [docImgOnly]).2

def c4Query : QueryInput := { image_vector := some [1] }

theorem cosineSim_one : cosineSim [(1 : ℝ)] [(1 : ℝ)] = 1 := by
  have hs : sumSqR [(1 : ℝ)] = 1 := by simp [sumSqR, dotR]
  simp only [cosineSim, hs, Real.sqrt_one, dotR]
  norm_num

theorem singleton_of_map_fst {α : Type} {l : List (String × α)} {k : String}
    (h : l.map Prod.fst = [k]) : ∃ v, l = [(k, v)] := by
  cases l with
  | nil => simp at h
  | cons p ps =>
    cases ps with
    | nil =>
      simp only [List.map_cons, List.map_nil, List.cons.injEq, and_true] at h
      refine ⟨p.2, ?_⟩
      rw [← h]
    | cons r rs => simp at h

/-- **C4 (counterexample).** For an image-only query (empty resolved text,
image vector `[1]`) against a bank with one image-bearing document, the
single result has `image_score = some 1 > 0` and `bm25_score = none` as the
claim states — but `dense_score = some 0.0`, not null, even though the
dense channel produced no score (`denseHitsOf = []`): the rerank loop's
`dense_map.get(qid, 0.0)` default is stored in the result. -/
theorem c4_image_only_query_dense_score_zero :
    denseHitsOf c4Bank c4Query = [] ∧
      ((retrieve c4Bank c4Query).results.map fun r =>
        (r.qid, r.bm25_score, r.dense_score, r.image_score)) =
      [("a", (none : Option ℝ), some (0 : ℝ), some (1 : ℝ))] := by
  have hfilter : filterQids c4Bank c4Query = ["a"] := rfl
  have hbm25 : bm25HitsOf c4Bank c4Query = [] := rfl
  have hdense : denseHitsOf c4Bank c4Query = [] := rfl
  have h10 : ¬ ((1 : ℝ) ≤ 0) := by norm_num
  have hmax : max (-1 : ℝ) 1 = 1 := by norm_num
  have hstep : heapStep [(1 : ℝ)] 300 [] ("i1", [(1 : ℝ)]) = [((1 : ℝ), "i1")] := by
    unfold heapStep
    rw [if_neg (by simp)]
    simp only [cosineSim_one]
    rw [if_neg h10, if_pos (by simp)]
    rfl
  have hsearch : searchPy [("i1", [(1 : ℝ)])] [(1 : ℝ)] 300 = [("i1", (1 : ℝ))] := by
    unfold searchPy searchHeap
    rw [if_neg (by simp)]
    simp only [List.foldl_cons, List.foldl_nil, hstep]
    rfl
  have himage : imageHitsOf c4Bank c4Query = [("a", (1 : ℝ))] := by
    have h1 : imageHitsOf c4Bank c4Query =
        scoreImage [("i1", [(1 : ℝ)])] [("i1", "a")] (some [(1 : ℝ)]) 300 ["a"] := rfl
    rw [h1]
    simp only [scoreImage]
    rw [if_neg (by simp)]
    rw [hsearch]
    simp only [List.foldl_cons, List.foldl_nil]
    have hne : ("a" : String) ≠ "" := by decide
    norm_num [lookupD, insertD, getScore, sortScoreDesc, insertScoreDesc, hmax, hne]
  have hhas : hasImageQuery c4Query = true := rfl
  have hcfg : c4Bank.config = defaultConfig := rfl
  have heff : effectiveWeights defaultConfig true = (0.45, 0.45, 0.10) := by
    unfold effectiveWeights
    rw [if_neg (by simp)]
    rfl
  have hfused : ∃ sc : ℝ, fusedOf c4Bank c4Query = [("a", sc)] := by
    apply singleton_of_map_fst
    have h1 : fusedOf c4Bank c4Query =
        fuseHybridScores [] [] [("a", (1 : ℝ))] defaultConfig true := by
      unfold fusedOf
      rw [hbm25, hdense, himage, hhas, hcfg]
    rw [h1]
    unfold fuseHybridScores
    rw [heff]
    have henum : ([("a", (1 : ℝ))]).enum = [(0, ("a", (1 : ℝ)))] := rfl
    have hne : ("a" : String) ≠ "" := by decide
    simp only [normalizeByMax, rrfFuse, henum, List.enum_nil, List.foldl_cons,
      List.foldl_nil, bumpAddR, sortScoreDesc, List.foldr_cons, List.foldr_nil,
      insertScoreDesc, List.map_cons, List.map_nil, List.nil_append,
      List.cons_append, dedupKeys, List.filter, getScore, lookupD, List.filterMap]
    norm_num [defaultConfig]
    norm_num [lookupD, insertScoreDesc]
  obtain ⟨sc, hfu⟩ := hfused
  have hdocs : lookupD c4Bank.docs "a" = some docImgOnly := rfl
  have htm : topMOf c4Bank c4Query = 200 := rfl
  have htn : topNOf c4Bank c4Query = 20 := rfl
  have hrows : ∃ row : RerankRow, rerankRowsOf c4Bank c4Query = [row] ∧
      row.qid = "a" ∧ row.bm25_score = none ∧ row.dense_score = 0 ∧
      row.image_score = some 1 := by
    unfold rerankRowsOf
    rw [hfu, htm]
    have htake : ([("a", sc)] : List (String × ℝ)).take 200 = [("a", sc)] := rfl
    rw [htake]
    simp only [List.filterMap_cons, List.filterMap_nil, hdocs, Option.map_some']
    refine ⟨_, rfl, rfl, ?_, ?_, ?_⟩
    · show lookupD (bm25HitsOf c4Bank c4Query) docImgOnly.qid = none
      rw [hbm25]
      rfl
    · show getScore (denseHitsOf c4Bank c4Query) docImgOnly.qid = 0
      rw [hdense]
      rfl
    · show lookupD (imageHitsOf c4Bank c4Query) docImgOnly.qid = some 1
      rw [himage]
      rfl
  obtain ⟨row, hrw, hq, hb, hd2, hi⟩ := hrows
  have hsrt : rerankedOf c4Bank c4Query = [row] := by
    unfold rerankedOf
    rw [hrw]
    rfl
  have hresmap : ((resultsOf c4Bank c4Query).map fun r =>
      (r.qid, r.bm25_score, r.dense_score, r.image_score)) =
      [("a", (none : Option ℝ), some (0 : ℝ), some (1 : ℝ))] := by
    unfold resultsOf
    rw [hsrt, htn]
    have htake : ([row]).take 20 = [row] := rfl
    rw [htake]
    simp only [List.map_cons, List.map_nil]
    rw [hq, hb, hd2, hi]
  have hretr : (retrieve c4Bank c4Query).results = resultsOf c4Bank c4Query := by
    unfold retrieve
    rw [hfilter]
    rfl
  exact ⟨hdense, by rw [hretr]; exact hresmap⟩




theorem mem_keys_insertD {α : Type} (m : List (String × α)) (k : String) (v : α)
    (a : String) :
    a ∈ (insertD m k v).map Prod.fst ↔ a = k ∨ a ∈ m.map Prod.fst := by
  induction m with
  | nil => simp [insertD]
  | cons p ps ih =>
    by_cases hp : p.1 = k
    · simp only [insertD, if_pos hp, List.map_cons, List.mem_cons]
      rw [hp]
      tauto
    · simp only [insertD, if_neg hp, List.map_cons, List.mem_cons, ih]
      tauto

theorem mem_keys_bumpAddR (m : List (String × ℝ)) (k : String) (v : ℝ)
    (a : String) :
    a ∈ (bumpAddR m k v).map Prod.fst ↔ a = k ∨ a ∈ m.map Prod.fst := by
  induction m with
  | nil => simp [bumpAddR]
  | cons p ps ih =>
    by_cases hp : p.1 = k
    · simp only [bumpAddR, if_pos hp, List.map_cons, List.mem_cons]
      rw [hp]
      tauto
    · simp only [bumpAddR, if_neg hp, List.map_cons, List.mem_cons, ih]
      tauto

theorem mem_keys_sortScoreDesc {α : Type} (key : α → ℝ) (f : α → String)
    (l : List α) (a : String) :
    a ∈ (sortScoreDesc key l).map f ↔ a ∈ l.map f := by
  constructor <;> intro h <;> rw [List.mem_map] at h ⊢ <;>
    obtain ⟨x, hx, rfl⟩ := h
  · exact ⟨x, (mem_sortScoreDesc key x l).mp hx, rfl⟩
  · exact ⟨x, (mem_sortScoreDesc key x l).mpr hx, rfl⟩

theorem keys_foldl_bumpAdd (g : ℕ × (String × ℝ) → ℝ)
    (xs : List (ℕ × (String × ℝ))) (m0 : List (String × ℝ)) (a : String)
    (h : a ∈ (xs.foldl (fun m ir => bumpAddR m ir.2.1 (g ir)) m0).map Prod.fst) :
    a ∈ m0.map Prod.fst ∨ a ∈ xs.map fun ir => ir.2.1 := by
  induction xs generalizing m0 with
  | nil => exact Or.inl h
  | cons x xs ih =>
    rw [List.foldl_cons] at h
    rcases ih _ h with h' | h'
    · rcases (mem_keys_bumpAddR _ _ _ _).mp h' with h'' | h''
      · right; simp [h'']
      · exact Or.inl h''
    · right; simp [h']

theorem enum_map_snd_fst {α : Type} (l : List (α × ℝ)) :
    (l.enum.map fun ir => ir.2.1) = l.map Prod.fst := by
  have h : (l.enum.map fun ir => ir.2.1) = (l.enum.map Prod.snd).map Prod.fst := by
    rw [List.map_map]
    rfl
  rw [h, List.enum_map_snd]

theorem mem_keys_rrfFuse (rankings : List (List (String × ℝ))) (k : ℕ)
    (a : String) (h : a ∈ (rrfFuse rankings k).map Prod.fst) :
    ∃ l ∈ rankings, a ∈ l.map Prod.fst := by
  unfold rrfFuse at h
  rw [mem_keys_sortScoreDesc] at h
  suffices hgen : ∀ m0 : List (String × ℝ),
      a ∈ (rankings.foldl (fun m rows =>
        rows.enum.foldl (fun m ir => bumpAddR m ir.2.1 (1 / ((k : ℝ) + ir.1 + 1))) m) m0).map Prod.fst →
      a ∈ m0.map Prod.fst ∨ ∃ l ∈ rankings, a ∈ l.map Prod.fst by
    rcases hgen [] h with h' | h'
    · simp at h'
    · exact h'
  clear h
  induction rankings with
  | nil => intro m0 h; exact Or.inl h
  | cons rows rest ih =>
    intro m0 h
    rw [List.foldl_cons] at h
    rcases ih _ h with h' | h'
    · rcases keys_foldl_bumpAdd _ _ _ _ h' with h'' | h''
      · exact Or.inl h''
      · rw [enum_map_snd_fst] at h''
        exact Or.inr ⟨rows, by simp, h''⟩
    · obtain ⟨l, hl, hal⟩ := h'
      exact Or.inr ⟨l, by simp [hl], hal⟩

theorem mem_fused_qid (b d i : List (String × ℝ)) (c : RAGConfig) (hq : Bool)
    (qid : String) (sc : ℝ) (hm : (qid, sc) ∈ fuseHybridScores b d i c hq) :
    qid ∈ b.map Prod.fst ∨ qid ∈ d.map Prod.fst ∨ qid ∈ i.map Prod.fst := by
  unfold fuseHybridScores at hm
  rw [mem_sortScoreDesc, List.mem_filterMap] at hm
  obtain ⟨q0, hq0, hsome⟩ := hm
  dsimp only at hsome
  have hq0a : q0 = qid := by
    split at hsome
    · exact congrArg Prod.fst (Option.some.inj hsome)
    · simp at hsome
  subst hq0a
  rw [mem_dedupKeys] at hq0
  simp only [List.map_append, List.mem_append] at hq0
  rcases hq0 with ((hb | hd) | hi) | hr
  · exact Or.inl hb
  · exact Or.inr (Or.inl hd)
  · exact Or.inr (Or.inr hi)
  · rcases mem_keys_rrfFuse _ _ _ hr with ⟨l, hl, hal⟩
    simp only [List.mem_cons, List.not_mem_nil, or_false] at hl
    rcases hl with rfl | rfl | rfl
    · exact Or.inl hal
    · exact Or.inr (Or.inl hal)
    · exact Or.inr (Or.inr hal)

theorem scoreSparse_subset_allowed (bm : BM25State) (t : String) (k : ℕ)
    (allowed : List String) (x : String × ℝ) (h : x ∈ scoreSparse bm t k allowed) :
    x.1 ∈ allowed := by
  unfold scoreSparse at h
  split at h
  · simp at h
  · simpa using (List.mem_filter.mp h).2

theorem scoreDense_subset_allowed (si ei : List (String × List ℝ)) (qv : List ℝ)
    (k : ℕ) (allowed : List String) (x : String × ℝ)
    (h : x ∈ scoreDense si ei qv k allowed) : x.1 ∈ allowed := by
  unfold scoreDense at h
  split at h
  · simp at h
  · have h' := List.take_subset _ _ h
    rw [mem_sortScoreDesc] at h'
    simpa using (List.mem_filter.mp h').2

theorem imageMerge_keys_allowed (owner : List (String × String))
    (allowed : List String) (rows : List (String × ℝ)) :
    ∀ m : List (String × ℝ), (∀ a ∈ m.map Prod.fst, a ∈ allowed) →
      ∀ a ∈ ((rows.foldl (fun m row =>
        match lookupD owner row.1 with
        | none => m
        | some qid =>
          if qid = "" ∨ qid ∉ allowed then m
          else insertD m qid (max ((lookupD m qid).getD (-1)) row.2)) m).map Prod.fst),
        a ∈ allowed := by
  induction rows with
  | nil => intro m hm a ha; exact hm a ha
  | cons row rows ih =>
    intro m hm a ha
    rw [List.foldl_cons] at ha
    refine ih _ ?_ a ha
    intro a' ha'
    cases hl : lookupD owner row.1 with
    | none => rw [hl] at ha'; exact hm a' ha'
    | some qid =>
      rw [hl] at ha'
      dsimp only at ha'
      by_cases hc : qid = "" ∨ qid ∉ allowed
      · rw [if_pos hc] at ha'
        exact hm a' ha'
      · rw [if_neg hc] at ha'
        rcases (mem_keys_insertD _ _ _ _).mp ha' with rfl | h'
        · push_neg at hc
          exact hc.2
        · exact hm a' h'

theorem scoreImage_subset_allowed (idx : List (String × List ℝ))
    (owner : List (String × String)) (iv : Option (List ℝ)) (k : ℕ)
    (allowed : List String) (x : String × ℝ)
    (h : x ∈ scoreImage idx owner iv k allowed) : x.1 ∈ allowed := by
  cases iv with
  | none => unfold scoreImage at h; simp at h
  | some v =>
    unfold scoreImage at h
    dsimp only at h
    split at h
    · simp at h
    · rw [mem_sortScoreDesc] at h
      exact imageMerge_keys_allowed owner allowed _ [] (by simp) x.1
        (List.mem_map.mpr ⟨x, h, rfl⟩)

theorem lookupD_of_mem_nodup {α : Type} (l : List (String × α)) (k : String)
    (v : α) (hm : (k, v) ∈ l) (hnd : (l.map Prod.fst).Nodup) :
    lookupD l k = some v := by
  induction l with
  | nil => simp at hm
  | cons p ps ih =>
    rw [List.map_cons, List.nodup_cons] at hnd
    rcases List.mem_cons.mp hm with heq | hmem
    · rw [← heq]
      simp [lookupD]
    · have hk : p.1 ≠ k := by
        intro hc
        exact hnd.1 (hc ▸ List.mem_map.mpr ⟨(k, v), hmem, rfl⟩)
      simp only [lookupD, if_neg hk]
      exact ih hmem hnd.2

theorem filterQids_spec (s : EngineState) (q : QueryInput) (qid : String)
    (h : qid ∈ filterQids s q) :
    ∃ p ∈ s.docs, filterOk q.filters p.2.metadata = true ∧ p.2.qid = qid := by
  unfold filterQids at h
  rw [List.mem_map] at h
  obtain ⟨d, hd, rfl⟩ := h
  rw [List.mem_filter] at hd
  obtain ⟨hd1, hd2⟩ := hd
  rw [List.mem_map] at hd1
  obtain ⟨p, hp, rfl⟩ := hd1
  exact ⟨p, hp, hd2, rfl⟩

/-- **C6 (amended).** On a bank whose docs map is key-coherent (each stored
document's qid is its key, keys distinct — as ingestion maintains), every
qid in a retrieval result satisfies `_filter_qids`'s per-document condition:
each of the five string-keyed filters is enforced by exact equality whenever
its value is truthy, and `year` whenever it is non-null. (A present but
falsy filter value — empty string, 0, False — is ignored by the code: see
the counterexample.) -/
theorem c6_truthy_filter_soundness (s : EngineState) (q : QueryInput)
    (hkey : ∀ p ∈ s.docs, p.2.qid = p.1)
    (hnd : (s.docs.map Prod.fst).Nodup) :
    (retrieve s q).results.Forall fun r =>
      filterOk q.filters r.question.metadata = true := by
  rw [List.forall_iff_forall_mem]
  intro r hr
  unfold retrieve at hr
  rw [apply_ite RetrievalResponse.results] at hr
  split at hr
  · simp at hr
  · simp only at hr
    unfold resultsOf at hr
    rw [List.mem_map] at hr
    obtain ⟨row, hrow, rfl⟩ := hr
    have hmem : row ∈ rerankRowsOf s q := by
      have h' := List.take_subset _ _ hrow
      unfold rerankedOf at h'
      rwa [mem_sortScoreDesc] at h'
    unfold rerankRowsOf at hmem
    rw [List.mem_filterMap] at hmem
    obtain ⟨cand, hcand, hmap⟩ := hmem
    cases hl : lookupD s.docs cand.1 with
    | none => rw [hl] at hmap; simp at hmap
    | some doc =>
      rw [hl] at hmap
      simp only [Option.map_some'] at hmap
      have hqd : row.question = doc := by rw [← Option.some.inj hmap]
      have hcand' : cand ∈ fusedOf s q := List.take_subset _ _ hcand
      obtain ⟨cq, csc⟩ := cand
      have hch := mem_fused_qid _ _ _ _ _ _ _ hcand'
      have hallowed : cq ∈ filterQids s q := by
        rcases hch with h | h | h
        · rw [List.mem_map] at h
          obtain ⟨x, hx, rfl⟩ := h
          exact scoreSparse_subset_allowed _ _ _ _ _ hx
        · rw [List.mem_map] at h
          obtain ⟨x, hx, rfl⟩ := h
          exact scoreDense_subset_allowed _ _ _ _ _ _ hx
        · rw [List.mem_map] at h
          obtain ⟨x, hx, rfl⟩ := h
          exact scoreImage_subset_allowed _ _ _ _ _ _ hx
      obtain ⟨p, hp, hdok, hdqid⟩ := filterQids_spec s q cq hallowed
      have hp1 : p.1 = cq := by rw [← hkey p hp, hdqid]
      have hlk : lookupD s.docs cq = some p.2 := by
        apply lookupD_of_mem_nodup _ _ _ _ hnd
        rw [← hp1]
        exact hp
      rw [hlk] at hl
      have hdp : doc = p.2 := (Option.some.inj hl).symm
      show filterOk q.filters row.question.metadata = true
      rw [hqd, hdp]
      exact hdok



def docImgMeta : QuestionDocument :=
  { qid := "a"
    stem := "circle"
    images := [{ image_id := "i1", image_vector := some [1] }]
    metadata := [("subject", MetaValue.str "math")]
    fingerprints :=
      { exact_hash := buildExactHash "circle" [] none
        template_hash := buildTemplateHash "circle" } }

noncomputable def c6Bank : EngineState :=
  (ingestDocs (freshState defaultConfig) [docImgMeta]).2

def c6Query : QueryInput :=
  { image_vector := some [1], filters := { subject := some (MetaValue.str "") } }

/-- **C6 (counterexample).** A filter key that is present and non-null but
falsy is not enforced: with `filters = {subject: ""}`, `_filter_qids` skips
the subject check (`f.get("subject")` is falsy), so the single result's
document has `metadata["subject"] = "math" ≠ ""` even though the claim
requires exact equality with every present non-null recognised filter. -/
theorem c6_empty_string_filter_ignored :
    c6Query.filters.subject = some (MetaValue.str "") ∧
      ((retrieve c6Bank c6Query).results.map fun r =>
        (r.qid, lookupD r.question.metadata "subject")) =
      [("a", some (MetaValue.str "math"))] ∧
      pyEq (MetaValue.str "math") (MetaValue.str "") = false := by
  have hfilter : filterQids c6Bank c6Query = ["a"] := rfl
  have hbm25 : bm25HitsOf c6Bank c6Query = [] := rfl
  have hdense : denseHitsOf c6Bank c6Query = [] := rfl
  have h10 : ¬ ((1 : ℝ) ≤ 0) := by norm_num
  have hmax : max (-1 : ℝ) 1 = 1 := by norm_num
  have hstep : heapStep [(1 : ℝ)] 300 [] ("i1", [(1 : ℝ)]) = [((1 : ℝ), "i1")] := by
    unfold heapStep
    rw [if_neg (by simp)]
    simp only [cosineSim_one]
    rw [if_neg h10, if_pos (by simp)]
    rfl
  have hsearch : searchPy [("i1", [(1 : ℝ)])] [(1 : ℝ)] 300 = [("i1", (1 : ℝ))] := by
    unfold searchPy searchHeap
    rw [if_neg (by simp)]
    simp only [List.foldl_cons, List.foldl_nil, hstep]
    rfl
  have himage : imageHitsOf c6Bank c6Query = [("a", (1 : ℝ))] := by
    have h1 : imageHitsOf c6Bank c6Query =
        scoreImage [("i1", [(1 : ℝ)])] [("i1", "a")] (some [(1 : ℝ)]) 300 ["a"] := rfl
    rw [h1]
    simp only [scoreImage]
    rw [if_neg (by simp)]
    rw [hsearch]
    simp only [List.foldl_cons, List.foldl_nil]
    have hne : ("a" : String) ≠ "" := by decide
    norm_num [lookupD, insertD, getScore, sortScoreDesc, insertScoreDesc, hmax, hne]
  have hhas : hasImageQuery c6Query = true := rfl
  have hcfg : c6Bank.config = defaultConfig := rfl
  have heff : effectiveWeights defaultConfig true = (0.45, 0.45, 0.10) := by
    unfold effectiveWeights
    rw [if_neg (by simp)]
    rfl
  have hfused : ∃ sc : ℝ, fusedOf c6Bank c6Query = [("a", sc)] := by
    apply singleton_of_map_fst
    have h1 : fusedOf c6Bank c6Query =
        fuseHybridScores [] [] [("a", (1 : ℝ))] defaultConfig true := by
      unfold fusedOf
      rw [hbm25, hdense, himage, hhas, hcfg]
    rw [h1]
    unfold fuseHybridScores
    rw [heff]
    have henum : ([("a", (1 : ℝ))]).enum = [(0, ("a", (1 : ℝ)))] := rfl
    simp only [normalizeByMax, rrfFuse, henum, List.enum_nil, List.foldl_cons,
      List.foldl_nil, bumpAddR, sortScoreDesc, List.foldr_cons, List.foldr_nil,
      insertScoreDesc, List.map_cons, List.map_nil, List.nil_append,
      List.cons_append, dedupKeys, List.filter, getScore, lookupD, List.filterMap]
    norm_num [defaultConfig]
    norm_num [lookupD, insertScoreDesc]
  obtain ⟨sc, hfu⟩ := hfused
  have hdocs : lookupD c6Bank.docs "a" = some docImgMeta := rfl
  have htm : topMOf c6Bank c6Query = 200 := rfl
  have htn : topNOf c6Bank c6Query = 20 := rfl
  have hrows : ∃ row : RerankRow, rerankRowsOf c6Bank c6Query = [row] ∧
      row.qid = "a" ∧ row.question = docImgMeta := by
    unfold rerankRowsOf
    rw [hfu, htm]
    have htake : ([("a", sc)] : List (String × ℝ)).take 200 = [("a", sc)] := rfl
    rw [htake]
    simp only [List.filterMap_cons, List.filterMap_nil, hdocs, Option.map_some']
    exact ⟨_, rfl, rfl, rfl⟩
  obtain ⟨row, hrw, hq, hqd⟩ := hrows
  have hsrt : rerankedOf c6Bank c6Query = [row] := by
    unfold rerankedOf
    rw [hrw]
    rfl
  have hresmap : ((resultsOf c6Bank c6Query).map fun r =>
      (r.qid, lookupD r.question.metadata "subject")) =
      [("a", some (MetaValue.str "math"))] := by
    unfold resultsOf
    rw [hsrt, htn]
    have htake : ([row]).take 20 = [row] := rfl
    rw [htake]
    simp only [List.map_cons, List.map_nil]
    rw [hq, hqd]
    rfl
  have hretr : (retrieve c6Bank c6Query).results = resultsOf c6Bank c6Query := by
    unfold retrieve
    rw [hfilter]
    rfl
  exact ⟨rfl, by rw [hretr]; exact hresmap, by decide⟩

theorem c6_truthy_filter_soundness_witness :
    (∀ p ∈ c6Bank.docs, p.2.qid = p.1) ∧
      (c6Bank.docs.map Prod.fst).Nodup ∧
      (retrieve c6Bank c6Query).results.Forall
        (fun r => filterOk c6Query.filters r.question.metadata = true) := by
  have hdocs : c6Bank.docs = [("a", docImgMeta)] := rfl
  have h1 : ∀ p ∈ c6Bank.docs, p.2.qid = p.1 := by
    rw [hdocs]
    intro p hp
    rw [List.mem_singleton] at hp
    subst hp
    rfl
  have h2 : (c6Bank.docs.map Prod.fst).Nodup := by
    rw [hdocs]
    decide
  exact ⟨h1, h2, c6_truthy_filter_soundness c6Bank c6Query h1 h2⟩



end EdRAG
